import Mathlib

/-
Verification development for the ProtoCaller `Protein` module
(src/ProtoCaller/Ensemble/Protein.py).

The Python source is shallowly embedded below.  Pure helpers become Lean
functions, fallible code returns `Option`/`Except`, and the stateful
`filter`/`prepare`/`ligand_ref` operations become functions from explicit
state records to outcome records.  Collaborator operations that live outside
the embedded module (the `ProtoCaller.IO.PDB` structure object, FASTA I/O,
external repair tools, the `Ligand` entity) are modelled from the spec and
are marked `Modelled from the spec:` in their doc comments.
-/

set_option linter.unusedVariables false
set_option linter.unnecessarySeqFocus false
set_option linter.unreachableTactic false
set_option linter.unusedTactic false

/-- A residue of the structure inventory: identity (chainID, resSeq, iCode)
plus residue name and category tag, mirroring the fields the Python code
reads off the residues returned by `self._pdb_obj.filter(...)`. -/
structure Residue where
  chainID : String
  resSeq : Int
  iCode : String
  resName : String
  type : String
deriving DecidableEq, Repr

/-- A missing residue record (`_PDB.MissingResidue(resName, chainID, resSeq,
iCode)`), a gap in the structure relative to the reference sequence. -/
structure MissingResidue where
  resName : String
  chainID : String
  resSeq : Int
  iCode : String
deriving DecidableEq, Repr

/-- A missing-atom record: a present residue together with the names of its
absent atoms (`self._pdb_obj.missing_atoms` entries). -/
structure MissingAtoms where
  resName : String
  chainID : String
  resSeq : Int
  iCode : String
  atoms : List String
deriving DecidableEq, Repr

/-- The structure inventory owned by the external PDB collaborator, reduced
to the lists the embedded code reads and writes. -/
structure PDBObj where
  residues : List Residue
  missing_residues : List MissingResidue
  missing_atoms : List MissingAtoms
  modified_residues : List Residue
  site_residues : List Residue
deriving DecidableEq, Repr

/-- A ligand or cofactor entity.  The Python code only consumes the four
underscore-separated components of `molecule.name`
(`code_resname_chainID_resSeqiCode`, cf. `molname.split("_")[1:4]` and the
regex in `ligand_ref`/`parametrise`), so the name is embedded structurally. -/
structure Molecule where
  code : String
  resname : String
  chainID : String
  resSeq_iCode : String
deriving DecidableEq, Repr

/-- Python number parsing and truncation, `int(float(id))`, modelled for
plain decimal literals: optional surrounding whitespace, an optional sign,
digits with an optional decimal point.  Exponent, infinity, nan and
underscore forms of the Python float syntax are out of scope of this model
(IEEE floating point itself is not modelled); on the decimal literals the
claims exercise, `float` is exact and truncation toward zero of
`[sign] d.f` is `sign * d`. -/
def stripWS (s : List Char) : List Char :=
  ((s.dropWhile Char.isWhitespace).reverse.dropWhile Char.isWhitespace).reverse

/-- Numeric value of a digit string. -/
def digitsVal (ds : List Char) : Nat :=
  ds.foldl (fun acc c => acc * 10 + (c.toNat - '0'.toNat)) 0

/-- Parse `[digits][.digits]` (at least one digit overall) and truncate
toward zero, applying the sign. -/
def parseDecimal (sgn : Int) (t : List Char) : Option Int :=
  let intDigits := t.takeWhile Char.isDigit
  let rest := t.dropWhile Char.isDigit
  match rest with
  | [] => if intDigits = [] then none else some (sgn * (digitsVal intDigits : Int))
  | '.' :: frac =>
      if frac.all Char.isDigit ∧ (intDigits ≠ [] ∨ frac ≠ []) then
        some (sgn * (digitsVal intDigits : Int))
      else none
  | _ => none

/-- Model of Python `int(float(s))` on decimal literals (see `stripWS`). -/
def pyNumTrunc (s : List Char) : Option Int :=
  let t := stripWS s
  match t with
  | [] => none
  | c :: rest =>
    if c = '-' then parseDecimal (-1) rest
    else if c = '+' then parseDecimal 1 rest
    else parseDecimal 1 t

/-- Core of `Protein._residTransform` on the stripped character list.
Mirrors the source line by line: an empty string fails (`id[0]` raises
IndexError), an alphabetic first character is consumed as chainID with
default "A", an alphabetic last character of the remainder is consumed as
iCode with default " " (an empty remainder fails: `id[-1]` raises
IndexError), and the rest goes through `int(float(id))`. -/
def residTransformAux : List Char → Option (String × Int × String)
  | [] => none
  | c0 :: rest =>
    let step1 : String × List Char :=
      if c0.isAlpha then (String.mk [c0], rest) else ("A", c0 :: rest)
    let chainID := step1.1
    let id1 := step1.2
    match id1.getLast? with
    | none => none
    | some cl =>
      let step2 : String × List Char :=
        if cl.isAlpha then (String.mk [cl], id1.dropLast) else (" ", id1)
      let iCode := step2.1
      let id2 := step2.2
      match pyNumTrunc id2 with
      | none => none
      | some n => some (chainID, n, iCode)

/-- `Protein._residTransform`: transforms an identifier string such as
"400G" into (chainID, resSeq, iCode), after stripping whitespace
(`id.strip()` is modelled by `stripWS` on the character list). -/
def residTransform (id : String) : Option (String × Int × String) :=
  residTransformAux (stripWS id.data)

/-- Stage one of the claimed parsing contract: consume an alphabetic first
character as chainID, else default chainID to "A". -/
def specChainStage (cs : List Char) : String × List Char :=
  match cs with
  | c :: rest => if c.isAlpha then (String.mk [c], rest) else ("A", cs)
  | [] => ("A", [])

/-- Stage two of the claimed parsing contract: consume an alphabetic last
character of the remainder as iCode, else use a blank iCode. -/
def specICodeStage (cs : List Char) : String × List Char :=
  match cs.getLast? with
  | some c => if c.isAlpha then (String.mk [c], cs.dropLast) else (" ", cs)
  | none => (" ", cs)

/-- The identifier-parsing contract exactly as the spec words it: strip
whitespace, run the chainID stage, run the iCode stage, then parse the rest
as a number truncated to an integer, failing when the rest is not numeric. -/
def residTransformSpec (id : String) : Option (String × Int × String) :=
  let s1 := specChainStage (stripWS id.data)
  let s2 := specICodeStage s1.2
  (pyNumTrunc s2.2).map fun n => (s1.1, n, s2.1)

theorem residTransformAux_eq_spec (cs : List Char) :
    residTransformAux cs =
      (pyNumTrunc (specICodeStage (specChainStage cs).2).2).map
        fun n => ((specChainStage cs).1, n, (specICodeStage (specChainStage cs).2).1) := by
  cases cs with
  | nil => rfl
  | cons c0 rest =>
    by_cases h0 : c0.isAlpha
    · rcases hl : rest.getLast? with _ | cl
      · have hr : rest = [] := List.getLast?_eq_none_iff.mp hl
        subst hr
        simp [residTransformAux, specChainStage, specICodeStage, h0, pyNumTrunc, stripWS]
      · by_cases h1 : cl.isAlpha <;>
          simp [residTransformAux, specChainStage, specICodeStage, h0, h1, hl] <;>
          (try (split <;> simp_all))
    · rcases hl : (c0 :: rest).getLast? with _ | cl
      · simp at hl
      · by_cases h1 : cl.isAlpha <;>
          simp [residTransformAux, specChainStage, specICodeStage, h0, h1, hl] <;>
          (try (split <;> simp_all))

/-- C4: for every identifier string, `Protein._residTransform` strips
whitespace, consumes an alphabetic first character as chainID or else
defaults chainID to "A", consumes an alphabetic last character of the
remainder as iCode or else uses a blank iCode, parses the rest as a number
truncated to an integer resSeq, and fails when the rest is not numeric
(stated as extensional equality with the staged contract
`residTransformSpec`); in particular parse "400G" = ("A", 400, "G"),
parse "B12A" = ("B", 12, "A") and parse "55" = ("A", 55, " "). -/
theorem c4_residTransform_contract :
    (∀ s : String, residTransform s = residTransformSpec s) ∧
    residTransform "400G" = some ("A", 400, "G") ∧
    residTransform "B12A" = some ("B", 12, "A") ∧
    residTransform "55" = some ("A", 55, " ") := by
  refine ⟨fun s => ?_, by decide, by decide, by decide⟩
  unfold residTransform residTransformSpec
  exact residTransformAux_eq_spec (stripWS s.data)

/-- An entry of `self._pdb_obj.totalResidueList()`: the ordered per-chain
inventory mixes present residues with `MissingResidue` records; the
trimming loop in `Protein.filter` inspects only `type(res) is
MissingResidue` and `res.chainID`. -/
inductive TotalRes
  | present (r : Residue)
  | missing (m : MissingResidue)
deriving DecidableEq, Repr

/-- Chain identifier of a total-residue-list entry. -/
def TotalRes.chainID : TotalRes → String
  | .present r => r.chainID
  | .missing m => m.chainID

/-- Whether the entry is a `MissingResidue` record (`type(res) is
_PDB.Missing.MissingResidue`). -/
def TotalRes.isMissing : TotalRes → Bool
  | .present _ => false
  | .missing _ => true

/-- The `MissingResidue` payload, when the entry is one. -/
def TotalRes.missingPayload : TotalRes → Option MissingResidue
  | .present _ => none
  | .missing m => some m

/-- The inner deletion loop of the `missing_residues == "middle"` branch of
`Protein.filter` (`for j in reversed(range(0, len(curr_missing)))`): walking
indices downwards, delete index `j` from both the residue list and the
sequence while the entry is a `MissingResidue` whose chainID differs from
`current_chain`, and break at the first other entry.  `current_chain` is
initialised to `None` and never reassigned in the source, so the comparison
`current_chain != res.chainID` is always true; it is kept as a parameter for
faithfulness.  The fuel argument `j + 1` means index `j` is examined next;
the loop is entered with fuel equal to the list length.  Python `del` on an
out-of-range index would raise; `List.eraseIdx` is silently inert there, but
the loop only ever deletes the current last index, which is in range. -/
def seqTrimInner (currentChain : Option String) :
    Nat → List TotalRes → List Char → List TotalRes × List Char
  | 0, l, s => (l, s)
  | j + 1, l, s =>
    match l[j]? with
    | none => (l, s)
    | some res =>
      if res.isMissing = true ∧ currentChain ≠ some res.chainID then
        seqTrimInner currentChain j (l.eraseIdx j) (s.eraseIdx j)
      else (l, s)

/-- One iteration of `for i in range(2)` in the "middle" branch: reverse
`curr_missing` and `seq` in place, then run the deletion loop. -/
def seqTrimPass (l : List TotalRes) (s : List Char) : List TotalRes × List Char :=
  seqTrimInner none l.reverse.length l.reverse s.reverse

/-- The trim loop run `n` times (the source uses `range(2)`). -/
def seqTrimIter : Nat → List TotalRes → List Char → List TotalRes × List Char
  | 0, l, s => (l, s)
  | n + 1, l, s =>
    let p := seqTrimPass l s
    seqTrimIter n p.1 p.2

/-- The per-chain body of the "middle" branch of `Protein.filter`: two
reverse-and-trim iterations over the chain's total residue list and its
reference sequence. -/
def seqTrimMiddle (l : List TotalRes) (s : List Char) : List TotalRes × List Char :=
  seqTrimIter 2 l s

theorem eraseIdx_concat {α : Type} (xs : List α) (x : α) :
    (xs ++ [x]).eraseIdx xs.length = xs := by
  induction xs with
  | nil => rfl
  | cons b bs ih => simp [List.eraseIdx, ih]

theorem takeWhile_length_le {α : Type} (p : α → Bool) (l : List α) :
    (l.takeWhile p).length ≤ l.length := by
  induction l with
  | nil => simp
  | cons a as ih =>
    by_cases h : p a <;> simp [List.takeWhile_cons, h] <;> omega

theorem dropWhile_length {α : Type} (p : α → Bool) (l : List α) :
    (l.dropWhile p).length = l.length - (l.takeWhile p).length := by
  induction l with
  | nil => simp
  | cons a as ih =>
    by_cases h : p a <;>
      simp [List.dropWhile_cons, List.takeWhile_cons, h, ih]

theorem seqTrimInner_spec (L : List TotalRes) :
    ∀ S : List Char, S.length = L.length →
      seqTrimInner none L.length L.reverse S.reverse =
        ((L.dropWhile TotalRes.isMissing).reverse,
         (S.drop (L.takeWhile TotalRes.isMissing).length).reverse) := by
  induction L with
  | nil =>
    intro S hS
    have : S = [] := List.length_eq_zero.mp hS
    subst this
    rfl
  | cons a L' ih =>
    intro S hS
    match S with
    | [] => simp at hS
    | b :: S' =>
      have hS' : S'.length = L'.length := by simpa using hS
      have hget : ((a :: L').reverse)[L'.length]? = some a := by
        rw [List.reverse_cons]
        have := List.getElem?_concat_length L'.reverse a
        rwa [List.length_reverse] at this
      show seqTrimInner none (L'.length + 1) (a :: L').reverse (b :: S').reverse = _
      rw [seqTrimInner, hget]
      dsimp only
      by_cases ha : a.isMissing = true
      · rw [if_pos (by exact ⟨ha, by simp⟩)]
        have e1 : ((a :: L').reverse).eraseIdx L'.length = L'.reverse := by
          rw [List.reverse_cons]
          have := eraseIdx_concat L'.reverse a
          rwa [List.length_reverse] at this
        have e2 : ((b :: S').reverse).eraseIdx L'.length = S'.reverse := by
          rw [List.reverse_cons]
          have := eraseIdx_concat S'.reverse b
          rwa [List.length_reverse, hS'] at this
        rw [e1, e2, ih S' hS']
        simp [List.dropWhile_cons, List.takeWhile_cons, ha, List.drop_succ_cons]
      · rw [if_neg (by simp [ha])]
        have ha' : a.isMissing = false := by simpa using ha
        simp [List.dropWhile_cons, List.takeWhile_cons, ha']

theorem seqTrimInner_fst (L : List TotalRes) :
    ∀ t : List Char, (seqTrimInner none L.length L.reverse t).1 =
      (L.dropWhile TotalRes.isMissing).reverse := by
  induction L with
  | nil => intro t; rfl
  | cons a L' ih =>
    intro t
    have hget : ((a :: L').reverse)[L'.length]? = some a := by
      rw [List.reverse_cons]
      have := List.getElem?_concat_length L'.reverse a
      rwa [List.length_reverse] at this
    show (seqTrimInner none (L'.length + 1) (a :: L').reverse t).1 = _
    rw [seqTrimInner, hget]
    dsimp only
    by_cases ha : a.isMissing = true
    · rw [if_pos (by exact ⟨ha, by simp⟩)]
      have e1 : ((a :: L').reverse).eraseIdx L'.length = L'.reverse := by
        rw [List.reverse_cons]
        have := eraseIdx_concat L'.reverse a
        rwa [List.length_reverse] at this
      rw [e1, ih (t.eraseIdx L'.length)]
      simp [List.dropWhile_cons, ha]
    · rw [if_neg (by simp [ha])]
      have ha' : a.isMissing = false := by simpa using ha
      simp [List.dropWhile_cons, ha']

theorem seqTrimPass_spec (l : List TotalRes) (s : List Char) (h : s.length = l.length) :
    seqTrimPass l s =
      ((l.dropWhile TotalRes.isMissing).reverse,
       (s.drop (l.takeWhile TotalRes.isMissing).length).reverse) := by
  unfold seqTrimPass
  rw [List.length_reverse]
  exact seqTrimInner_spec l s h

theorem seqTrimPass_fst (l : List TotalRes) (s : List Char) :
    (seqTrimPass l s).1 = (l.dropWhile TotalRes.isMissing).reverse := by
  unfold seqTrimPass
  rw [List.length_reverse]
  exact seqTrimInner_fst l s.reverse

/-- An entry `x` sits in an interior gap of `l`: somewhere strictly between
a present residue before it and a present residue after it. -/
def InteriorOf (x : TotalRes) (l : List TotalRes) : Prop :=
  ∃ l₁ p l₂ q l₃, l = l₁ ++ p :: l₂ ++ q :: l₃ ∧
    p.isMissing = false ∧ q.isMissing = false ∧ x ∈ l₂

theorem interior_mem {x : TotalRes} {l : List TotalRes} (h : InteriorOf x l) : x ∈ l := by
  obtain ⟨l₁, p, l₂, q, l₃, rfl, _, _, hx⟩ := h
  simp [hx]

theorem dropWhile_append_present (l₁ : List TotalRes) (p : TotalRes) (r : List TotalRes)
    (hp : p.isMissing = false) :
    ∃ l₁', (l₁ ++ p :: r).dropWhile TotalRes.isMissing = l₁' ++ p :: r := by
  induction l₁ with
  | nil => exact ⟨[], by simp [List.dropWhile_cons, hp]⟩
  | cons a l₁t ih =>
    by_cases ha : a.isMissing = true
    · obtain ⟨l₁', hl⟩ := ih
      exact ⟨l₁', by simp [List.dropWhile_cons, ha, hl]⟩
    · exact ⟨a :: l₁t, by simp [List.dropWhile_cons, Bool.not_eq_true _ ▸ ha]⟩

theorem interior_pass {x : TotalRes} {l : List TotalRes} (h : InteriorOf x l) :
    InteriorOf x ((l.dropWhile TotalRes.isMissing).reverse) := by
  obtain ⟨l₁, p, l₂, q, l₃, rfl, hp, hq, hx⟩ := h
  obtain ⟨l₁', hdrop⟩ := dropWhile_append_present l₁ p (l₂ ++ q :: l₃) hp
  refine ⟨l₃.reverse, q, l₂.reverse, p, l₁'.reverse, ?_, hq, hp, ?_⟩
  · have h2 : l₁ ++ p :: l₂ ++ q :: l₃ = l₁ ++ p :: (l₂ ++ q :: l₃) := by simp
    rw [h2, hdrop]
    simp [List.reverse_append, List.reverse_cons, List.append_assoc]
  · simpa using hx

/-- C1: for every chain processed by `Protein.filter` with
`missing_residues="middle"`, the two reverse-and-trim iterations remove
exactly the missing-residue runs contiguous with either end of the chain's
total residue list (each `dropWhile` halts at the first present residue),
deleting the corresponding positions from the chain's reference sequence,
and any entry of an interior gap, bounded on both sides by present
residues, survives no matter how many times the trim iteration is repeated. -/
theorem c1_middle_trim (l : List TotalRes) (s : List Char) :
    (s.length = l.length →
      seqTrimMiddle l s =
        (((l.dropWhile TotalRes.isMissing).reverse.dropWhile TotalRes.isMissing).reverse,
         (((s.drop (l.takeWhile TotalRes.isMissing).length).reverse.drop
             ((l.dropWhile TotalRes.isMissing).reverse.takeWhile TotalRes.isMissing).length).reverse)))
    ∧ (∀ n x, InteriorOf x l → x ∈ (seqTrimIter n l s).1) := by
  constructor
  · intro h
    have h1 := seqTrimPass_spec l s h
    have hlen1 : ((s.drop (l.takeWhile TotalRes.isMissing).length).reverse).length =
        ((l.dropWhile TotalRes.isMissing).reverse).length := by
      simp only [List.length_reverse, List.length_drop]
      rw [dropWhile_length TotalRes.isMissing l, h]
    have h2 := seqTrimPass_spec ((l.dropWhile TotalRes.isMissing).reverse)
        ((s.drop (l.takeWhile TotalRes.isMissing).length).reverse) hlen1
    unfold seqTrimMiddle
    simp only [seqTrimIter]
    rw [h1]
    exact h2
  · intro n
    induction n generalizing l s with
    | zero => intro x hx; exact interior_mem hx
    | succ n ih =>
      intro x hx
      show x ∈ (seqTrimIter n (seqTrimPass l s).1 (seqTrimPass l s).2).1
      apply ih
      rw [seqTrimPass_fst]
      exact interior_pass hx

/-- Sample entries for the C1 witness: a missing and a present residue of
chain "A" at a given position. -/
def c1Missing (n : Int) : TotalRes :=
  .missing ⟨"ALA", "A", n, " "⟩

/-- Sample present residue for the C1 witness. -/
def c1Present (n : Int) : TotalRes :=
  .present ⟨"A", n, " ", "GLY", "amino_acid"⟩

/-- Concrete chain for the C1 witness: missing runs at both ends and a
single missing residue in the middle. -/
def c1List : List TotalRes :=
  [c1Missing 1, c1Present 2, c1Missing 3, c1Present 4, c1Missing 5]

/-- Concrete reference sequence for the C1 witness. -/
def c1Seq : List Char := ['A', 'B', 'C', 'D', 'E']

theorem c1_middle_trim_witness :
    (c1Seq.length = c1List.length ∧
      seqTrimMiddle c1List c1Seq =
        (((c1List.dropWhile TotalRes.isMissing).reverse.dropWhile TotalRes.isMissing).reverse,
         (((c1Seq.drop (c1List.takeWhile TotalRes.isMissing).length).reverse.drop
             ((c1List.dropWhile TotalRes.isMissing).reverse.takeWhile TotalRes.isMissing).length).reverse))) ∧
    (InteriorOf (c1Missing 3) c1List ∧ c1Missing 3 ∈ (seqTrimIter 5 c1List c1Seq).1) :=
  ⟨⟨by decide, (c1_middle_trim c1List c1Seq).1 (by decide)⟩,
   ⟨⟨[c1Missing 1], c1Present 2, [c1Missing 3], c1Present 4, [c1Missing 5],
      rfl, rfl, rfl, by decide⟩,
    (c1_middle_trim c1List c1Seq).2 5 (c1Missing 3)
      ⟨[c1Missing 1], c1Present 2, [c1Missing 3], c1Present 4, [c1Missing 5],
       rfl, rfl, rfl, by decide⟩⟩⟩

/-- Lexicographic order on character lists (used to model the identity
order on chain and insertion-code strings). -/
def lexLE : List Char → List Char → Bool
  | [], _ => true
  | _ :: _, [] => false
  | a :: as, b :: bs => if a < b then true else if a = b then lexLE as bs else false

/-- Lexicographic order on strings. -/
def strLE (a b : String) : Bool := lexLE a.data b.data

/-- Identity order on missing-residue records, from the spec data model:
the total order (chainID, resSeq, iCode) with the blank iCode " " sorting
before any letter (its code point precedes all letters
lexicographically). -/
def mrKeyLE (a b : MissingResidue) : Bool :=
  if a.chainID ≠ b.chainID then strLE a.chainID b.chainID
  else if a.resSeq ≠ b.resSeq then decide (a.resSeq ≤ b.resSeq)
  else strLE a.iCode b.iCode

/-- Insertion into a sorted list. -/
def insertLE {α : Type} (le : α → α → Bool) (a : α) : List α → List α
  | [] => [a]
  | b :: bs => if le a b then a :: b :: bs else b :: insertLE le a bs

/-- Insertion sort. -/
def sortLE {α : Type} (le : α → α → Bool) : List α → List α
  | [] => []
  | a :: as => insertLE le a (sortLE le as)

/-- Modelled from the spec: `_PDB.PDB.sortResidueList` (the structure
collaborator's residue-list sorter, not under src/) sorts missing-residue
records by identity order. -/
def sortResidueList (l : List MissingResidue) : List MissingResidue :=
  sortLE mrKeyLE l

theorem insertLE_perm {α : Type} (le : α → α → Bool) (a : α) (l : List α) :
    (insertLE le a l).Perm (a :: l) := by
  induction l with
  | nil => rfl
  | cons b bs ih =>
    rw [insertLE]
    by_cases h : le a b
    · rw [if_pos h]
    · rw [if_neg h]
      exact (List.Perm.cons b ih).trans (List.Perm.swap a b bs)

theorem sortLE_perm {α : Type} (le : α → α → Bool) (l : List α) :
    (sortLE le l).Perm l := by
  induction l with
  | nil => rfl
  | cons a as ih =>
    exact (insertLE_perm le a (sortLE le as)).trans (List.Perm.cons a ih)

theorem insertLE_chain {α : Type} (le : α → α → Bool)
    (htot : ∀ x y, le x y = true ∨ le y x = true) (a : α) (l : List α)
    (hl : List.Chain' (fun x y => le x y = true) l) :
    List.Chain' (fun x y => le x y = true) (insertLE le a l) := by
  induction l with
  | nil => simp [insertLE]
  | cons b bs ih =>
    rw [insertLE]
    by_cases h : le a b
    · rw [if_pos h]
      exact List.chain'_cons.mpr ⟨h, hl⟩
    · rw [if_neg h]
      have hba : le b a = true := (htot a b).resolve_left h
      have hrec := ih hl.tail
      cases bs with
      | nil =>
        rw [insertLE]
        exact List.chain'_cons.mpr ⟨hba, List.chain'_singleton a⟩
      | cons c cs =>
        have hbc : le b c = true := (List.chain'_cons.mp hl).1
        by_cases h2 : le a c
        · have he : insertLE le a (c :: cs) = a :: c :: cs := by rw [insertLE, if_pos h2]
          rw [he] at hrec ⊢
          exact List.chain'_cons.mpr ⟨hba, hrec⟩
        · have he : insertLE le a (c :: cs) = c :: insertLE le a cs := by rw [insertLE, if_neg h2]
          rw [he] at hrec ⊢
          exact List.chain'_cons.mpr ⟨hbc, hrec⟩

theorem sortLE_chain {α : Type} (le : α → α → Bool)
    (htot : ∀ x y, le x y = true ∨ le y x = true) (l : List α) :
    List.Chain' (fun x y => le x y = true) (sortLE le l) := by
  induction l with
  | nil => simp [sortLE]
  | cons a as ih => exact insertLE_chain le htot a _ ih

theorem lexLE_total (a : List Char) : ∀ b : List Char, lexLE a b = true ∨ lexLE b a = true := by
  induction a with
  | nil => intro b; left; rfl
  | cons x xs ih =>
    intro b
    cases b with
    | nil => right; rfl
    | cons y ys =>
      rcases lt_trichotomy x y with h | h | h
      · left; simp [lexLE, h]
      · subst h
        rcases ih ys with h2 | h2
        · left; simp [lexLE, h2]
        · right; simp [lexLE, h2]
      · right; simp [lexLE, h]

theorem strLE_total (a b : String) : strLE a b = true ∨ strLE b a = true :=
  lexLE_total a.data b.data

theorem mrKeyLE_total (a b : MissingResidue) : mrKeyLE a b = true ∨ mrKeyLE b a = true := by
  unfold mrKeyLE
  by_cases hc : a.chainID = b.chainID
  · by_cases hr : a.resSeq = b.resSeq
    · simpa [hc, hr] using strLE_total a.iCode b.iCode
    · have hr' : ¬ b.resSeq = a.resSeq := fun h => hr h.symm
      by_cases hle : a.resSeq ≤ b.resSeq
      · left; simp [hc, hr, hle]
      · right; simp [hc, hr', le_of_not_le hle]
  · have hc' : ¬ b.chainID = a.chainID := fun h => hc h.symm
    simpa [hc, hc'] using strLE_total a.chainID b.chainID

/-- Test of `any(x for x in atoms if x in ["C", "CA", "N"])` in
`Protein.prepare`: the generator yields only atom names in the backbone set
(all of which are truthy nonempty strings), so the test holds exactly when
some missing atom is C, CA or N. -/
def hasMissingBackbone (a : MissingAtoms) : Bool :=
  a.atoms.any (fun x => decide (x ∈ (["C", "CA", "N"] : List String)))

/-- The `(atoms.resName, atoms.chainID, atoms.resSeq, atoms.iCode)` tuple
appended to `purge_list`. -/
structure ResKey where
  resName : String
  chainID : String
  resSeq : Int
  iCode : String
deriving DecidableEq, Repr

/-- Key of a missing-atom record. -/
def MissingAtoms.key (a : MissingAtoms) : ResKey :=
  ⟨a.resName, a.chainID, a.resSeq, a.iCode⟩

/-- The `_PDB.MissingResidue(*x)` built from a purge-list tuple. -/
def ResKey.toMissingRes (k : ResKey) : MissingResidue :=
  ⟨k.resName, k.chainID, k.resSeq, k.iCode⟩

/-- One residue matching a purge-list entry, the semantic reading of the
`(resName=='{}'&chainID=='{}'&resSeq=={}&iCode=='{}')` clause of
`purge_str`. -/
def matchesKey (r : Residue) (k : ResKey) : Bool :=
  decide (r.resName = k.resName ∧ r.chainID = k.chainID ∧
          r.resSeq = k.resSeq ∧ r.iCode = k.iCode)

/-- The deletion loop `for i in reversed(range(len(missing_atoms)))` of
`Protein.prepare`: indices are visited from the highest down, each record
with a missing backbone atom is appended to `purge_list` and deleted.
Structurally, the tail (higher indices) is processed first, and the head
(index 0) is appended to the purge list last. -/
def promotePass : List MissingAtoms → List MissingAtoms × List ResKey
  | [] => ([], [])
  | a :: rest =>
    let p := promotePass rest
    if hasMissingBackbone a then (p.1, p.2 ++ [a.key]) else (a :: p.1, p.2)

theorem promotePass_spec (l : List MissingAtoms) :
    promotePass l = (l.filter (fun a => !hasMissingBackbone a),
                     ((l.filter hasMissingBackbone).map MissingAtoms.key).reverse) := by
  induction l with
  | nil => rfl
  | cons a rest ih =>
    by_cases h : hasMissingBackbone a <;>
      simp [promotePass, ih, List.filter_cons, h]

/-- The `if not force_add_atoms:` block of `Protein.prepare`: records with
a missing backbone atom are deleted from `missing_atoms`; if any were found
(`made_changes`), the matching residues are discarded from the structure
(`purgeResidues(filter(purge_str), "discard")`, modelled from the spec as
removing the matching residues), the promoted records are appended to
`missing_residues` as `MissingResidue`s and the list is re-sorted with
`sortResidueList`. -/
def backboneToMissing (pdb : PDBObj) : PDBObj :=
  let p := promotePass pdb.missing_atoms
  if p.2 = [] then { pdb with missing_atoms := p.1 }
  else
    { pdb with
      residues := pdb.residues.filter (fun r => !(p.2.any (matchesKey r))),
      missing_atoms := p.1,
      missing_residues := sortResidueList (pdb.missing_residues ++ p.2.map ResKey.toMissingRes) }

theorem backboneToMissing_missing_atoms (pdb : PDBObj) :
    (backboneToMissing pdb).missing_atoms =
      pdb.missing_atoms.filter (fun a => !hasMissingBackbone a) := by
  unfold backboneToMissing
  rw [promotePass_spec]
  by_cases h : ((pdb.missing_atoms.filter hasMissingBackbone).map MissingAtoms.key).reverse = [] <;>
    simp [h]

theorem filter_eq_self_of_none {α : Type} (l : List α) (p : α → Bool)
    (h : ∀ a ∈ l, p a = false) : l.filter (fun a => !p a) = l := by
  induction l with
  | nil => rfl
  | cons a as ih =>
    have ha := h a (List.mem_cons_self a as)
    simp [List.filter_cons, ha, ih (fun x hx => h x (List.mem_cons_of_mem a hx))]

theorem backboneToMissing_residues (pdb : PDBObj) :
    (backboneToMissing pdb).residues =
      pdb.residues.filter
        (fun r => !((promotePass pdb.missing_atoms).2.any (matchesKey r))) := by
  unfold backboneToMissing
  by_cases h : (promotePass pdb.missing_atoms).2 = []
  · simp only [h, if_pos, if_true]
    have : ∀ r ∈ pdb.residues, (([] : List ResKey).any (matchesKey r)) = false := by
      intro r _; rfl
    exact (filter_eq_self_of_none pdb.residues _ this).symm
  · simp only [h, if_neg, if_false]

theorem backboneToMissing_missing_residues (pdb : PDBObj) :
    (backboneToMissing pdb).missing_residues =
      if (promotePass pdb.missing_atoms).2 = [] then pdb.missing_residues
      else sortResidueList
        (pdb.missing_residues ++ (promotePass pdb.missing_atoms).2.map ResKey.toMissingRes) := by
  unfold backboneToMissing
  by_cases h : (promotePass pdb.missing_atoms).2 = [] <;> simp [h]

/-- Configuration of `Protein.prepare` (strategy strings may be None). -/
structure PrepareConfig where
  add_missing_residues : Option String
  add_missing_atoms : Option String
  protonate_proteins : Option String
  protonate_ligands : Option String
  replace_nonstandard_residues : Bool
  force_add_atoms : Bool
deriving DecidableEq, Repr

/-- External tool invocations dispatched by `Protein.prepare`; each
replaces the working structure (`self.pdb = ...Transform(...)`).  They are
modelled as opaque transformations of the structure inventory. -/
inductive Tool
  | pdbfixerNonstandard
  | modellerResidues (atoms : Bool)
  | charmmgui
  | pdbfixerResidues (atoms : Bool)
  | pdbfixerAtoms
  | pdb2pqr
deriving DecidableEq, Repr

/-- Warnings emitted by `Protein.prepare`. -/
inductive PrepWarning
  | pdb2pqrForcedProtonation
  | modellerUnavailableResidues
  | modellerUnavailableAtoms
  | missingResiduesUnhandled
  | modellerAtomsNoResidues
  | ligandsNotProtonated
deriving DecidableEq, Repr

/-- Fatal errors `Protein.prepare` can raise. -/
inductive PrepError
  | noFasta
deriving DecidableEq, Repr

/-- Strategy normalisation at the top of `Protein.prepare`:
`x.strip().lower() if x is not None else ""`. -/
def normStrat (s : Option String) : String :=
  match s with
  | some s => String.mk ((stripWS s.data).map Char.toLower)
  | none => ""

/-- Result of a `Protein.prepare` run: the effective strategies, emitted
warnings, dispatched tools in order, the structure state right after the
backbone promotion block, the final structure state, and the fatal error
if one was raised. -/
structure PrepareResult where
  amr_effective : String
  ama_effective : String
  warnings : List PrepWarning
  trace : List Tool
  afterPromotion : PDBObj
  final : PDBObj
  error : Option PrepError
deriving Repr

/-- Model of `Protein.prepare` (lines 444-562 of the source): strategy
normalisation, the compatibility warning, the two Modeller-licence fallback
substitutions, the backbone promotion block, the nonstandard-residue
replacement, the missing-residue dispatch (with the `MissingSequenceError`
when modeller is selected without a reference sequence), the missing-atom
dispatch with its own fallbacks, protein protonation and the
ligand-protonation warning.  `modellerAvailable` stands for `_PC.MODELLER`
and `hasFasta` for the truthiness of `self.fasta`; external tools are the
opaque parameter `apply`. -/
def prepareModel (modellerAvailable hasFasta : Bool) (apply : Tool → PDBObj → PDBObj)
    (pdb : PDBObj) (cfg : PrepareConfig) : PrepareResult :=
  let amr0 := normStrat cfg.add_missing_residues
  let ama0 := normStrat cfg.add_missing_atoms
  let pp := normStrat cfg.protonate_proteins
  let pl := normStrat cfg.protonate_ligands
  let w1 : List PrepWarning :=
    if ama0 = "pdb2pqr" ∧ pp ≠ "pdb2pqr" then [.pdb2pqrForcedProtonation] else []
  let amrW : String × List PrepWarning :=
    if pdb.missing_residues ≠ [] ∧ amr0 = "modeller" ∧ modellerAvailable = false
    then ("charmm-gui", [.modellerUnavailableResidues]) else (amr0, [])
  let amr := amrW.1
  let amaW : String × List PrepWarning :=
    if pdb.missing_atoms ≠ [] ∧ ama0 = "modeller" ∧ modellerAvailable = false
    then ("pdb2pqr", [.modellerUnavailableAtoms]) else (ama0, [])
  let ama1 := amaW.1
  let pdb1 := if cfg.force_add_atoms then pdb else backboneToMissing pdb
  let modT : PDBObj × List Tool :=
    if cfg.replace_nonstandard_residues ∧ pdb1.modified_residues ≠ []
    then (apply .pdbfixerNonstandard pdb1, [.pdbfixerNonstandard]) else (pdb1, [])
  let pdb2 := modT.1
  if pdb2.missing_residues ≠ [] ∧ amr = "modeller" ∧ hasFasta = false then
    { amr_effective := amr, ama_effective := ama1,
      warnings := w1 ++ amrW.2 ++ amaW.2, trace := modT.2,
      afterPromotion := pdb1, final := pdb2, error := some .noFasta }
  else
    let mrT : PDBObj × List Tool × List PrepWarning :=
      if pdb2.missing_residues ≠ [] then
        if amr = "modeller" then
          (apply (.modellerResidues (ama1 = "modeller")) pdb2,
           [.modellerResidues (ama1 = "modeller")], [])
        else if amr = "charmm-gui" then (apply .charmmgui pdb2, [.charmmgui], [])
        else if amr = "pdbfixer" then
          (apply (.pdbfixerResidues (ama1 = "pdbfixer")) pdb2,
           [.pdbfixerResidues (ama1 = "pdbfixer")], [])
        else (pdb2, [], [.missingResiduesUnhandled])
      else (pdb2, [], [])
    let pdb3 := mrT.1
    let maT : String × PDBObj × List Tool × List PrepWarning :=
      if pdb3.missing_atoms ≠ [] then
        if ama1 = "modeller" ∧ (pdb3.missing_residues = [] ∨ amr ≠ "modeller")
        then ("pdb2pqr", pdb3, [], [.modellerAtomsNoResidues])
        else if ama1 = "pdbfixer" ∧ amr ≠ "pdbfixer"
        then (ama1, apply .pdbfixerAtoms pdb3, [.pdbfixerAtoms], [])
        else (ama1, pdb3, [], [])
      else (ama1, pdb3, [], [])
    let ama2 := maT.1
    let pdb4 := maT.2.1
    let protT : PDBObj × List Tool :=
      if ama2 = "pdb2pqr" ∨ pp = "pdb2pqr" then (apply .pdb2pqr pdb4, [.pdb2pqr])
      else (pdb4, [])
    let w6 : List PrepWarning := if pl = "babel" then [] else [.ligandsNotProtonated]
    { amr_effective := amr, ama_effective := ama2,
      warnings := w1 ++ amrW.2 ++ amaW.2 ++ mrT.2.2 ++ maT.2.2.2 ++ w6,
      trace := modT.2 ++ mrT.2.1 ++ maT.2.2.1 ++ protT.2,
      afterPromotion := pdb1, final := protT.1, error := none }

theorem prepareModel_afterPromotion (ma hf : Bool) (apply : Tool → PDBObj → PDBObj)
    (pdb : PDBObj) (cfg : PrepareConfig) :
    (prepareModel ma hf apply pdb cfg).afterPromotion =
      (if cfg.force_add_atoms then pdb else backboneToMissing pdb) := by
  unfold prepareModel
  simp only [apply_ite PrepareResult.afterPromotion, ite_self]

theorem backboneToMissing_keeps_missing (pdb : PDBObj)
    (h : pdb.missing_residues ≠ []) :
    (backboneToMissing pdb).missing_residues ≠ [] := by
  rw [backboneToMissing_missing_residues]
  by_cases hp : (promotePass pdb.missing_atoms).2 = []
  · simpa [hp] using h
  · simp only [hp, if_neg, if_false]
    intro hcon
    have hperm := sortLE_perm mrKeyLE
      (pdb.missing_residues ++ (promotePass pdb.missing_atoms).2.map ResKey.toMissingRes)
    rw [sortResidueList] at hcon
    rw [hcon] at hperm
    have := hperm.length_eq
    simp at this
    have hlen : pdb.missing_residues.length = 0 := by omega
    exact h (List.length_eq_zero.mp hlen)

/-- C3: for every `Protein.prepare` call with `force_add_atoms=False`, the
backbone promotion block turns exactly the missing-atom records containing
one of C, CA, N into missing residues: they are removed from the
missing-atom list, the matching residues are purged from the structure, the
promoted records are appended to the missing-residue list as
`MissingResidue`s founded on the same identity, and the list is re-sorted by
identity order (stated as being ordered under `mrKeyLE` and a permutation of
the appended lists); records without a missing backbone atom keep their
missing-atom entries, and when nothing qualifies the structure state is left
unchanged. -/
theorem c3_backbone_promotion (ma hf : Bool) (apply : Tool → PDBObj → PDBObj)
    (pdb : PDBObj) (cfg : PrepareConfig) :
    (prepareModel ma hf apply pdb { cfg with force_add_atoms := false }).afterPromotion =
        backboneToMissing pdb ∧
    (backboneToMissing pdb).missing_atoms =
        pdb.missing_atoms.filter (fun a => !hasMissingBackbone a) ∧
    (backboneToMissing pdb).residues =
        pdb.residues.filter (fun r =>
          !(((pdb.missing_atoms.filter hasMissingBackbone).map MissingAtoms.key).reverse.any
             (matchesKey r))) ∧
    (pdb.missing_atoms.any hasMissingBackbone = false → backboneToMissing pdb = pdb) ∧
    (pdb.missing_atoms.any hasMissingBackbone = true →
      List.Chain' (fun x y => mrKeyLE x y = true) (backboneToMissing pdb).missing_residues ∧
      ((backboneToMissing pdb).missing_residues).Perm
        (pdb.missing_residues ++
          (pdb.missing_atoms.filter hasMissingBackbone).map
            (fun a => a.key.toMissingRes))) := by
  refine ⟨?_, backboneToMissing_missing_atoms pdb, ?_, ?_, ?_⟩
  · rw [prepareModel_afterPromotion]
    simp
  · rw [backboneToMissing_residues, promotePass_spec]
  · intro hnone
    have hall := List.any_eq_false.mp hnone
    have hfil : pdb.missing_atoms.filter hasMissingBackbone = [] := by
      rw [List.filter_eq_nil_iff]
      intro a hmem
      simpa using hall a hmem
    unfold backboneToMissing
    rw [promotePass_spec]
    simp only [hfil, List.map_nil, List.reverse_nil, if_pos, if_true]
    have hsame : pdb.missing_atoms.filter (fun a => !hasMissingBackbone a) = pdb.missing_atoms := by
      apply filter_eq_self_of_none
      intro a hmem
      simpa using hall a hmem
    rw [hsame]
  · intro hsome
    have hfil : pdb.missing_atoms.filter hasMissingBackbone ≠ [] := by
      obtain ⟨a, hmem, hbb⟩ := List.any_eq_true.mp hsome
      intro hcon
      have := List.filter_eq_nil_iff.mp hcon a hmem
      simp [hbb] at this
    have hp2 : (promotePass pdb.missing_atoms).2 ≠ [] := by
      rw [promotePass_spec]
      simpa using hfil
    constructor
    · rw [backboneToMissing_missing_residues]
      simp only [hp2, if_neg, if_false]
      exact sortLE_chain mrKeyLE mrKeyLE_total _
    · rw [backboneToMissing_missing_residues]
      simp only [hp2, if_neg, if_false]
      have h1 := sortLE_perm mrKeyLE
        (pdb.missing_residues ++ (promotePass pdb.missing_atoms).2.map ResKey.toMissingRes)
      rw [sortResidueList]
      refine h1.trans (List.Perm.append_left pdb.missing_residues ?_)
      rw [promotePass_spec]
      refine (List.Perm.map ResKey.toMissingRes (List.reverse_perm _)).trans ?_
      rw [List.map_map]
      exact List.Perm.refl _

/-- Concrete structure state for the C3 witness: one residue with a missing
backbone atom (CA) and one with only a side-chain atom missing. -/
def c3Pdb : PDBObj :=
  { residues := [⟨"A", 10, " ", "GLY", "amino_acid"⟩, ⟨"A", 11, " ", "ALA", "amino_acid"⟩],
    missing_residues := [⟨"SER", "A", 20, " "⟩],
    missing_atoms := [⟨"GLY", "A", 10, " ", ["CA", "O"]⟩, ⟨"ALA", "A", 11, " ", ["CB"]⟩],
    modified_residues := [],
    site_residues := [] }

theorem c3_backbone_promotion_witness :
    c3Pdb.missing_atoms.any hasMissingBackbone = true ∧
    (List.Chain' (fun x y => mrKeyLE x y = true) (backboneToMissing c3Pdb).missing_residues ∧
      ((backboneToMissing c3Pdb).missing_residues).Perm
        (c3Pdb.missing_residues ++
          (c3Pdb.missing_atoms.filter hasMissingBackbone).map
            (fun a => a.key.toMissingRes))) :=
  ⟨by decide,
   (c3_backbone_promotion true true (fun _ p => p) c3Pdb
      ⟨none, none, none, none, false, false⟩).2.2.2.2 (by decide)⟩

theorem backboneToMissing_modified (pdb : PDBObj) :
    (backboneToMissing pdb).modified_residues = pdb.modified_residues := by
  unfold backboneToMissing
  simp only [apply_ite PDBObj.modified_residues, ite_self]

set_option maxHeartbeats 1000000 in
/-- C9: for every `Protein.prepare` call on a structure with missing
residues where `add_missing_residues` normalises to "modeller" and the
Modeller licence (`_PC.MODELLER`) is unavailable, the effective
missing-residue strategy becomes "charmm-gui", the corresponding warning is
emitted, the dispatched missing-residue repair is the charmm-gui one (never
the modeller one), and no error is raised.  The hypothesis that the
nonstandard-residue pass does not run keeps the structure state at the
dispatch point independent of the opaque external tools. -/
theorem c9_modeller_fallback (hf : Bool) (apply : Tool → PDBObj → PDBObj)
    (pdb : PDBObj) (cfg : PrepareConfig)
    (h1 : pdb.missing_residues ≠ [])
    (h2 : normStrat cfg.add_missing_residues = "modeller")
    (h3 : cfg.replace_nonstandard_residues = false ∨ pdb.modified_residues = []) :
    (prepareModel false hf apply pdb cfg).amr_effective = "charmm-gui" ∧
    PrepWarning.modellerUnavailableResidues ∈ (prepareModel false hf apply pdb cfg).warnings ∧
    Tool.charmmgui ∈ (prepareModel false hf apply pdb cfg).trace ∧
    (∀ b, Tool.modellerResidues b ∉ (prepareModel false hf apply pdb cfg).trace) ∧
    (prepareModel false hf apply pdb cfg).error = none := by
  have hpdb1 : (if cfg.force_add_atoms then pdb else backboneToMissing pdb).missing_residues ≠ [] := by
    by_cases hfa : cfg.force_add_atoms
    · simpa [hfa] using h1
    · simpa [hfa] using backboneToMissing_keeps_missing pdb h1
  have hpdb1mod : (if cfg.force_add_atoms then pdb else backboneToMissing pdb).modified_residues =
      pdb.modified_residues := by
    by_cases hfa : cfg.force_add_atoms
    · simp [hfa]
    · simp [hfa, backboneToMissing_modified]
  have hcond1 : pdb.missing_residues ≠ [] ∧
      normStrat cfg.add_missing_residues = "modeller" ∧ (false : Bool) = false := ⟨h1, h2, rfl⟩
  have hmodFalse : ¬ (cfg.replace_nonstandard_residues = true ∧
      (if cfg.force_add_atoms then pdb else backboneToMissing pdb).modified_residues ≠ []) := by
    rw [hpdb1mod]
    rcases h3 with h3 | h3 <;> simp [h3]
  unfold prepareModel
  dsimp only
  rw [if_pos hcond1]
  dsimp only
  rw [if_neg hmodFalse]
  dsimp only
  rw [if_neg (by simp : ¬ ((if cfg.force_add_atoms then pdb else backboneToMissing pdb).missing_residues ≠ [] ∧
        ("charmm-gui" : String) = "modeller" ∧ hf = false))]
  dsimp only
  rw [if_pos hpdb1]
  rw [if_neg (by simp : ¬ ("charmm-gui" : String) = "modeller")]
  rw [if_pos (rfl : ("charmm-gui" : String) = "charmm-gui")]
  dsimp only
  refine ⟨rfl, ?_, ?_, ?_, rfl⟩
  · simp
  · simp
  · intro b
    simp only [List.mem_append]
    push_neg
    refine ⟨⟨by simp, ?_⟩, ?_⟩ <;> (repeat' split) <;> (dsimp only) <;> simp only [List.mem_singleton, List.not_mem_nil, not_false_eq_true] <;> (intro hc; cases hc)

/-- Concrete structure state for the C9 witness. -/
def c9Pdb : PDBObj :=
  { residues := [⟨"A", 1, " ", "GLY", "amino_acid"⟩],
    missing_residues := [⟨"ALA", "A", 2, " "⟩],
    missing_atoms := [],
    modified_residues := [],
    site_residues := [] }

/-- Concrete prepare configuration for the C9 witness. -/
def c9Cfg : PrepareConfig :=
  ⟨some "modeller", some "pdb2pqr", some "pdb2pqr", some "babel", false, false⟩

theorem c9_modeller_fallback_witness :
    (c9Pdb.missing_residues ≠ [] ∧ normStrat c9Cfg.add_missing_residues = "modeller" ∧
      (c9Cfg.replace_nonstandard_residues = false ∨ c9Pdb.modified_residues = [])) ∧
    ((prepareModel false true (fun _ p => p) c9Pdb c9Cfg).amr_effective = "charmm-gui" ∧
     PrepWarning.modellerUnavailableResidues ∈
       (prepareModel false true (fun _ p => p) c9Pdb c9Cfg).warnings ∧
     Tool.charmmgui ∈ (prepareModel false true (fun _ p => p) c9Pdb c9Cfg).trace ∧
     (∀ b, Tool.modellerResidues b ∉ (prepareModel false true (fun _ p => p) c9Pdb c9Cfg).trace) ∧
     (prepareModel false true (fun _ p => p) c9Pdb c9Cfg).error = none) :=
  ⟨⟨by decide, by decide, Or.inl rfl⟩,
   c9_modeller_fallback true (fun _ p => p) c9Pdb c9Cfg (by decide) (by decide) (Or.inl rfl)⟩

/-- The `chains` argument of `Protein.filter`: the literal string "all" or
an iterable of chain identifiers. -/
inductive Chains
  | all
  | only (cs : List String)
deriving DecidableEq, Repr

/-- Membership `chainID in chains` for a non-"all" chains value.  When
`chains == "all"` the Python substring test `chainID in "all"` is only
evaluated inside an `any [...]` whose value is already decided by the
`param == "chain" and chains == "all"` disjunct, so its value never
matters; it is modelled as false. -/
def chainMem (c : String) : Chains → Bool
  | .all => false
  | .only cs => decide (c ∈ cs)

/-- Chain restriction of the structure masks (the
`&chainID in %s % str(list(chains))` clause is appended only when
`chains != "all"`). -/
def chainOK (c : String) : Chains → Bool
  | .all => true
  | .only cs => decide (c ∈ cs)

/-- Configuration of `Protein.filter`.  Policy values are the raw Python
arguments (None or a string; strings other than "all"/"chain"/"site" fall
through every branch and keep nothing, as in the source). -/
structure FilterConfig where
  missing_residues : String
  chains : Chains
  waters : Option String
  ligands : Option String
  cofactors : Option String
  simple_anions : Option String
  complex_anions : Option String
  simple_cations : Option String
  complex_cations : Option String
  include_mols : List String
  exclude_mols : List String
deriving DecidableEq, Repr

/-- Errors raised inside `Protein.filter`: a malformed identifier in
`_residTransform` (ValueError/IndexError), the sequence-coverage failure
("Not all chains are contained in the FASTA sequence"), and the
UnboundLocalError on the stale `chainID` variable in the FASTA write (see
`fastaWriteStage`). -/
inductive FilterErr
  | malformedId
  | seqMismatch
  | unboundChainID
deriving DecidableEq, Repr

/-- An entry of the keep list (the local `filter` list in the source):
present residues from the structure masks and missing-residue records from
the missing-residue block. -/
inductive KeepEntry
  | res (r : Residue)
  | mis (m : MissingResidue)
deriving DecidableEq, Repr

/-- Outcome of a `Protein.filter` call: the (possibly replaced) ligand and
cofactor lists, the structure residues after the purge (unchanged when the
call aborts first), the content written to the FASTA file if that write
ran, whether the PDB file was rewritten, and the raised error if any. -/
structure FilterOutcome where
  ligands : List Molecule
  cofactors : List Molecule
  residues : List Residue
  fasta_written : Option (List (String × List Char))
  pdb_written : Bool
  error : Option FilterErr
deriving DecidableEq, Repr

/-- One `(param, name)` pass of the ligand/cofactor loop of
`Protein.filter` for a single molecule: the copies of the molecule appended
to `temp_dict[name]` (`none` when `_residTransform` fails on the molecule's
resSeq/iCode component).  The `elif param == "site"` loop has no break, so
the molecule is appended once per site residue matching on resSeq and
iCode. -/
def molPasses (rt : String → String) (site : List Residue) (param : Option String)
    (name : String) (chains : Chains) (incl excl : List String) (mol : Molecule) :
    Option (List Molecule) :=
  match residTransform mol.resSeq_iCode with
  | none => none
  | some (_, resSeq, iCode) =>
    if rt mol.resname = name ∧ mol.resSeq_iCode ∉ excl then
      if param = some "all" ∨ (param = some "chain" ∧ chains = Chains.all) ∨
         (param = some "chain" ∧ chainMem mol.chainID chains = true) ∨
         mol.resSeq_iCode ∈ incl then
        some [mol]
      else if param = some "site" then
        some ((site.filter (fun r => decide (r.resSeq = resSeq ∧ r.iCode = iCode))).map
          (fun _ => mol))
      else some []
    else some []

/-- The ligand/cofactor reclassification loop (lines 288-308): every
molecule of `self.ligands + self.cofactors` is tested against the ligand
policy and the cofactor policy; the last processed molecule's chainID
component stays bound in the local variable `chainID` and is returned as
the stale binding. -/
def ligandStage (rt : String → String) (site : List Residue)
    (ligPol cofPol : Option String) (chains : Chains) (incl excl : List String) :
    List Molecule → List Molecule → List Molecule → Option String →
    Option (List Molecule × List Molecule × Option String)
  | [], accL, accC, stale => some (accL, accC, stale)
  | mol :: rest, accL, accC, _ =>
    match molPasses rt site ligPol "ligand" chains incl excl mol,
          molPasses rt site cofPol "cofactor" chains incl excl mol with
    | some addL, some addC =>
        ligandStage rt site ligPol cofPol chains incl excl rest
          (accL ++ addL) (accC ++ addC) (some mol.chainID)
    | _, _ => none

/-- Modelled from the spec: `sorted({x.chainID for x in self._pdb_obj})`,
the sorted set of chain identifiers of the structure's present residues. -/
def pdbChainIDs (pdb : PDBObj) : List String :=
  sortLE strLE ((pdb.residues.map Residue.chainID).dedup)

/-- Lookup in the per-chain FASTA map (`fastas[chainID]`). -/
def alookup (k : String) : List (String × List Char) → Option (List Char)
  | [] => none
  | (k', v) :: rest => if k' = k then some v else alookup k rest

/-- Update of the per-chain FASTA map (`fasta.seq = seq` mutates the record
held in the dict). -/
def aupdate (k : String) (v : List Char) :
    List (String × List Char) → List (String × List Char)
  | [] => []
  | (k', v') :: rest => if k' = k then (k', v) :: rest else (k', v') :: aupdate k v rest

/-- Sequence number of a total-residue-list entry. -/
def TotalRes.resSeq : TotalRes → Int
  | .present r => r.resSeq
  | .missing m => m.resSeq

/-- Insertion code of a total-residue-list entry. -/
def TotalRes.iCode : TotalRes → String
  | .present r => r.iCode
  | .missing m => m.iCode

/-- Identity order on total-residue-list entries. -/
def totalKeyLE (a b : TotalRes) : Bool :=
  if a.chainID ≠ b.chainID then strLE a.chainID b.chainID
  else if a.resSeq ≠ b.resSeq then decide (a.resSeq ≤ b.resSeq)
  else strLE a.iCode b.iCode

/-- Modelled from the spec: `self._pdb_obj.totalResidueList()`, the ordered
inventory mixing present residues and missing-residue records, ordered by
identity. -/
def totalResidueList (pdb : PDBObj) : List TotalRes :=
  sortLE totalKeyLE
    (pdb.residues.map TotalRes.present ++ pdb.missing_residues.map TotalRes.missing)

/-- The `for chainID in chainIDs` loop of the "middle" branch: per chain,
select the chain's entries of the total residue list, trim them against the
chain's reference sequence with `seqTrimMiddle`, store the trimmed sequence
back into the FASTA map and concatenate the surviving entries.  The
`(alookup ...).getD []` default is unreachable under the coverage check
(every structure chain has a sequence; a missing key would be a Python
KeyError). -/
def middleLoop (total : List TotalRes) :
    List String → List (String × List Char) → List TotalRes × List (String × List Char)
  | [], fastas => ([], fastas)
  | c :: cs, fastas =>
    let curr := total.filter (fun x => decide (x.chainID = c))
    let seqc := (alookup c fastas).getD []
    let p := seqTrimMiddle curr seqc
    let rec2 := middleLoop total cs (aupdate c p.2 fastas)
    (p.1 ++ rec2.1, rec2.2)

/-- The FASTA write of line 354:
`_SeqIO.write([fastas[chainId] for chainId in chainIDs if chains == "all" or chainID in chains], self.fasta, "fasta")`.
The comprehension's condition tests the variable `chainID` (capital D),
which is not the comprehension variable `chainId`: with `chains == "all"`
the disjunction short-circuits to true, but otherwise the stale local
`chainID` (last bound by the ligand loop or by the middle-branch chain
loop) decides the condition uniformly for every chain — all sequences are
written or none — and if it was never bound and the chain list is
nonempty, Python raises UnboundLocalError. -/
def fastaWriteStage (fastas : List (String × List Char)) (chainIDs : List String)
    (chains : Chains) (stale : Option String) :
    Except FilterErr (List (String × List Char)) :=
  match chains with
  | .all => .ok (chainIDs.filterMap (fun c => (alookup c fastas).map (fun s => (c, s))))
  | .only cs =>
    if chainIDs = [] then .ok []
    else
      match stale with
      | none => .error .unboundChainID
      | some c0 =>
        .ok (if c0 ∈ cs then
               chainIDs.filterMap (fun c => (alookup c fastas).map (fun s => (c, s)))
             else [])

/-- The missing-residue block (lines 320-358): nothing happens when the
structure reports no missing residues; otherwise the reference coverage is
checked (`SequenceMismatchError`), the "middle" trim or the keep-all choice
is made, the FASTA file is rewritten, and the surviving missing residues
(restricted to `chains` when not "all") are returned for the keep list. -/
def missingStage (pdb : PDBObj) (fastas : List (String × List Char)) (cfg : FilterConfig)
    (stale0 : Option String) :
    Except FilterErr (List MissingResidue × Option (List (String × List Char))) :=
  if pdb.missing_residues = [] then .ok ([], none)
  else
    let chainIDs := pdbChainIDs pdb
    if ¬ (∀ c ∈ chainIDs, c ∈ fastas.map Prod.fst) then .error .seqMismatch
    else
      let branch : List MissingResidue × List (String × List Char) × Option String :=
        if cfg.missing_residues = "middle" then
          let p := middleLoop (totalResidueList pdb) chainIDs fastas
          (p.1.filterMap TotalRes.missingPayload, p.2,
           match chainIDs.getLast? with
           | some c => some c
           | none => stale0)
        else (pdb.missing_residues, fastas, stale0)
      match fastaWriteStage branch.2.1 chainIDs cfg.chains branch.2.2 with
      | .error e => .error e
      | .ok written =>
        let mrl := match cfg.chains with
          | .all => branch.1
          | .only cs => branch.1.filter (fun m => decide (m.chainID ∈ cs))
        .ok (mrl, some written)

/-- One `(param, name)` pass of the waters/anions/cations loop
(lines 360-372): "all" (or "chain" with `chains == "all"`) keeps every
residue of the type, "chain" adds the chain restriction, and "site" keeps
from the chain-restricted list only residues in `site_residues` (site AND
chain compose). -/
def hetOne (pdb : PDBObj) (chains : Chains) (param : Option String) (name : String) :
    List Residue :=
  if param = some "all" ∨ (param = some "chain" ∧ chains = Chains.all) then
    pdb.residues.filter (fun r => decide (r.type = name))
  else if param = some "chain" then
    pdb.residues.filter (fun r => decide (r.type = name) && chainOK r.chainID chains)
  else if param = some "site" then
    let temp : List Residue := match chains with
      | Chains.all => pdb.residues.filter (fun r => decide (r.type = name))
      | Chains.only cs =>
          pdb.residues.filter (fun r => decide (r.type = name) && decide (r.chainID ∈ cs))
    temp.filter (fun r => decide (r ∈ pdb.site_residues))
  else []

/-- The five hetero passes in source order. -/
def hetStage (pdb : PDBObj) (cfg : FilterConfig) : List Residue :=
  hetOne pdb cfg.chains cfg.waters "water" ++
  hetOne pdb cfg.chains cfg.simple_anions "simple_anion" ++
  hetOne pdb cfg.chains cfg.complex_anions "complex_anion" ++
  hetOne pdb cfg.chains cfg.simple_cations "simple_cation" ++
  hetOne pdb cfg.chains cfg.complex_cations "complex_cation"

/-- Resolution of `include_mols`/`exclude_mols` entries (lines 374-396):
each identifier goes through `_residTransform` (failure aborts the call)
and selects the structure residues with that identity whose type is not
ligand or cofactor; an entry resolving to nothing only warns. -/
def resolveMols (pdb : PDBObj) : List String → Option (List Residue)
  | [] => some []
  | s :: rest =>
    match residTransform s with
    | none => none
    | some (c, n, i) =>
      let rs := pdb.residues.filter (fun r =>
        decide (r.chainID = c ∧ r.resSeq = n ∧ r.iCode = i ∧
                r.type ≠ "ligand" ∧ r.type ≠ "cofactor"))
      (resolveMols pdb rest).map (fun acc => rs ++ acc)

/-- Model of `Protein.filter` (lines 243-400).  `rt` is the
`_PC.RESIDUETYPE` classification table, `pdb` the structure inventory,
`ligs`/`cofs` the current ligand and cofactor lists, `fastas` the parsed
per-chain reference sequences (`_openfasta`), `cfg` the call
configuration.  The outcome carries the partially mutated state when the
call aborts: the ligand and cofactor lists are replaced before the
missing-residue block runs, while the purge (`purgeResidues(filter,
"keep")`, modelled from the spec as keeping exactly the keep-set residues)
and the PDB rewrite happen last.  Python's
`list(set(filter) - set(excl_filter))` is modelled membership-faithfully:
the keep list loses every entry equal to an excluded residue (the set
conversion only scrambles order and removes duplicates, which the purge's
membership test cannot observe). -/
def filterModel (rt : String → String) (pdb : PDBObj) (ligs cofs : List Molecule)
    (fastas : List (String × List Char)) (cfg : FilterConfig) : FilterOutcome :=
  match ligandStage rt pdb.site_residues cfg.ligands cfg.cofactors cfg.chains
      cfg.include_mols cfg.exclude_mols (ligs ++ cofs) [] [] none with
  | none => ⟨ligs, cofs, pdb.residues, none, false, some .malformedId⟩
  | some (newL, newC, stale) =>
    let keep0 : List KeepEntry :=
      (pdb.residues.filter (fun r =>
        decide (r.type = "amino_acid" ∨ r.type = "amino_acid_modified") &&
        chainOK r.chainID cfg.chains)).map KeepEntry.res
    match missingStage pdb fastas cfg stale with
    | .error e => ⟨newL, newC, pdb.residues, none, false, some e⟩
    | .ok (missKeep, written) =>
      let keep2 := keep0 ++ missKeep.map KeepEntry.mis ++ (hetStage pdb cfg).map KeepEntry.res
      match resolveMols pdb cfg.include_mols with
      | none => ⟨newL, newC, pdb.residues, written, false, some .malformedId⟩
      | some inclRes =>
        let keep3 := keep2 ++ inclRes.map KeepEntry.res
        match resolveMols pdb cfg.exclude_mols with
        | none => ⟨newL, newC, pdb.residues, written, false, some .malformedId⟩
        | some exclRes =>
          let keepF := keep3.filter (fun e => decide (e ∉ exclRes.map KeepEntry.res))
          ⟨newL, newC,
           pdb.residues.filter (fun r => decide (KeepEntry.res r ∈ keepF)),
           written, true, none⟩

theorem molPasses_elems (rt : String → String) (site : List Residue) (param : Option String)
    (name : String) (chains : Chains) (incl excl : List String) (mol : Molecule)
    (add : List Molecule)
    (h : molPasses rt site param name chains incl excl mol = some add) :
    ∀ y ∈ add, y = mol := by
  unfold molPasses at h
  cases hrt : residTransform mol.resSeq_iCode with
  | none => rw [hrt] at h; cases h
  | some t =>
    obtain ⟨c, n, i⟩ := t
    rw [hrt] at h
    dsimp only at h
    by_cases h1 : rt mol.resname = name ∧ mol.resSeq_iCode ∉ excl
    · rw [if_pos h1] at h
      by_cases h2 : param = some "all" ∨ (param = some "chain" ∧ chains = Chains.all) ∨
          (param = some "chain" ∧ chainMem mol.chainID chains = true) ∨
          mol.resSeq_iCode ∈ incl
      · rw [if_pos h2] at h
        cases h
        intro y hy
        simpa using hy
      · rw [if_neg h2] at h
        by_cases h3 : param = some "site"
        · rw [if_pos h3] at h
          cases h
          intro y hy
          obtain ⟨r, _, hr⟩ := List.mem_map.mp hy
          exact hr.symm
        · rw [if_neg h3] at h
          cases h
          intro y hy
          cases hy
    · rw [if_neg h1] at h
      cases h
      intro y hy
      cases hy

theorem molPasses_nonempty_conds (rt : String → String) (site : List Residue)
    (param : Option String) (name : String) (chains : Chains) (incl excl : List String)
    (mol : Molecule) (add : List Molecule)
    (h : molPasses rt site param name chains incl excl mol = some add)
    (hne : add ≠ []) :
    rt mol.resname = name ∧ mol.resSeq_iCode ∉ excl := by
  unfold molPasses at h
  cases hrt : residTransform mol.resSeq_iCode with
  | none => rw [hrt] at h; cases h
  | some t =>
    obtain ⟨c, n, i⟩ := t
    rw [hrt] at h
    dsimp only at h
    by_cases h1 : rt mol.resname = name ∧ mol.resSeq_iCode ∉ excl
    · exact h1
    · rw [if_neg h1] at h
      cases h
      exact absurd rfl hne

theorem molPasses_site_nonempty (rt : String → String) (site : List Residue)
    (chains : Chains) (incl excl : List String) (mol : Molecule) (name : String)
    (c0 : String) (n : Int) (i : String)
    (h_rt : rt mol.resname = name) (h_ex : mol.resSeq_iCode ∉ excl)
    (hparse : residTransform mol.resSeq_iCode = some (c0, n, i))
    (hsite : ∃ sr ∈ site, sr.resSeq = n ∧ sr.iCode = i) :
    ∃ add, molPasses rt site (some "site") name chains incl excl mol = some add ∧
      add ≠ [] := by
  unfold molPasses
  rw [hparse]
  dsimp only
  rw [if_pos ⟨h_rt, h_ex⟩]
  by_cases h2 : (some "site" : Option String) = some "all" ∨
      ((some "site" : Option String) = some "chain" ∧ chains = Chains.all) ∨
      ((some "site" : Option String) = some "chain" ∧ chainMem mol.chainID chains = true) ∨
      mol.resSeq_iCode ∈ incl
  · rw [if_pos h2]
    exact ⟨[mol], rfl, by simp⟩
  · rw [if_neg h2, if_pos rfl]
    refine ⟨_, rfl, ?_⟩
    obtain ⟨sr, hmem, h1, h2'⟩ := hsite
    have : sr ∈ site.filter (fun r => decide (r.resSeq = n ∧ r.iCode = i)) :=
      List.mem_filter.mpr ⟨hmem, by simp [h1, h2']⟩
    intro hcon
    rw [List.map_eq_nil_iff] at hcon
    rw [hcon] at this
    cases this

theorem molPasses_self_mem (rt : String → String) (site : List Residue)
    (param : Option String) (name : String) (chains : Chains) (incl excl : List String)
    (mol : Molecule) (add : List Molecule)
    (h : molPasses rt site param name chains incl excl mol = some add)
    (hne : add ≠ []) : mol ∈ add := by
  cases add with
  | nil => exact absurd rfl hne
  | cons a as =>
    have := molPasses_elems rt site param name chains incl excl mol (a :: as) h a
      (List.mem_cons_self _ _)
    rw [← this]
    exact List.mem_cons_self _ _

theorem ligandStage_mem (rt : String → String) (site : List Residue)
    (ligPol cofPol : Option String) (chains : Chains) (incl excl : List String) :
    ∀ (mols accL accC : List Molecule) (st : Option String)
      (L C : List Molecule) (st' : Option String),
      ligandStage rt site ligPol cofPol chains incl excl mols accL accC st =
        some (L, C, st') →
      ∀ x : Molecule,
        (x ∈ L ↔ x ∈ accL ∨ ∃ m ∈ mols, x = m ∧
          ∃ add, molPasses rt site ligPol "ligand" chains incl excl m = some add ∧
            add ≠ []) ∧
        (x ∈ C ↔ x ∈ accC ∨ ∃ m ∈ mols, x = m ∧
          ∃ add, molPasses rt site cofPol "cofactor" chains incl excl m = some add ∧
            add ≠ []) := by
  intro mols
  induction mols with
  | nil =>
    intro accL accC st L C st' h x
    rw [ligandStage] at h
    cases h
    constructor <;> simp
  | cons mol rest ih =>
    intro accL accC st L C st' h x
    rw [ligandStage] at h
    cases hL : molPasses rt site ligPol "ligand" chains incl excl mol with
    | none => rw [hL] at h; cases h
    | some addL =>
      cases hC : molPasses rt site cofPol "cofactor" chains incl excl mol with
      | none => rw [hL, hC] at h; cases h
      | some addC =>
        rw [hL, hC] at h
        dsimp only at h
        have hrec := ih (accL ++ addL) (accC ++ addC) (some mol.chainID) L C st' h x
        constructor
        · rw [hrec.1]
          constructor
          · rintro (hx | ⟨m, hm, hxm, add, hadd, hne⟩)
            · rcases List.mem_append.mp hx with hx | hx
              · exact Or.inl hx
              · refine Or.inr ⟨mol, List.mem_cons_self _ _,
                  molPasses_elems rt site ligPol "ligand" chains incl excl mol addL hL x hx,
                  addL, hL, fun hnil => by rw [hnil] at hx; cases hx⟩
            · exact Or.inr ⟨m, List.mem_cons_of_mem _ hm, hxm, add, hadd, hne⟩
          · rintro (hx | ⟨m, hm, hxm, add, hadd, hne⟩)
            · exact Or.inl (List.mem_append.mpr (Or.inl hx))
            · rcases List.mem_cons.mp hm with heq | hm2
              · have hadd2 : molPasses rt site ligPol "ligand" chains incl excl mol =
                    some add := by rw [← heq]; exact hadd
                have hae : addL = add := Option.some.inj (hL.symm.trans hadd2)
                refine Or.inl (List.mem_append.mpr (Or.inr ?_))
                rw [hxm, heq, hae]
                exact molPasses_self_mem rt site ligPol "ligand" chains incl excl mol add
                  hadd2 hne
              · exact Or.inr ⟨m, hm2, hxm, add, hadd, hne⟩
        · rw [hrec.2]
          constructor
          · rintro (hx | ⟨m, hm, hxm, add, hadd, hne⟩)
            · rcases List.mem_append.mp hx with hx | hx
              · exact Or.inl hx
              · refine Or.inr ⟨mol, List.mem_cons_self _ _,
                  molPasses_elems rt site cofPol "cofactor" chains incl excl mol addC hC x hx,
                  addC, hC, fun hnil => by rw [hnil] at hx; cases hx⟩
            · exact Or.inr ⟨m, List.mem_cons_of_mem _ hm, hxm, add, hadd, hne⟩
          · rintro (hx | ⟨m, hm, hxm, add, hadd, hne⟩)
            · exact Or.inl (List.mem_append.mpr (Or.inl hx))
            · rcases List.mem_cons.mp hm with heq | hm2
              · have hadd2 : molPasses rt site cofPol "cofactor" chains incl excl mol =
                    some add := by rw [← heq]; exact hadd
                have hae : addC = add := Option.some.inj (hC.symm.trans hadd2)
                refine Or.inl (List.mem_append.mpr (Or.inr ?_))
                rw [hxm, heq, hae]
                exact molPasses_self_mem rt site cofPol "cofactor" chains incl excl mol add
                  hadd2 hne
              · exact Or.inr ⟨m, hm2, hxm, add, hadd, hne⟩

theorem missingStage_nil (pdb : PDBObj) (fastas : List (String × List Char))
    (cfg : FilterConfig) (stale : Option String) (h : pdb.missing_residues = []) :
    missingStage pdb fastas cfg stale = .ok ([], none) := by
  unfold missingStage
  rw [if_pos h]

theorem fastaWriteStage_error_unbound (fastas : List (String × List Char))
    (chainIDs : List String) (chains : Chains) (stale : Option String) (e : FilterErr)
    (h : fastaWriteStage fastas chainIDs chains stale = .error e) :
    e = .unboundChainID := by
  unfold fastaWriteStage at h
  cases chains with
  | all => dsimp only at h; cases h
  | only cs =>
    dsimp only at h
    by_cases hc : chainIDs = []
    · rw [if_pos hc] at h; cases h
    · rw [if_neg hc] at h
      cases stale with
      | none => exact (Except.error.inj h).symm
      | some c0 => cases h

theorem missingStage_error_iff (pdb : PDBObj) (fastas : List (String × List Char))
    (cfg : FilterConfig) (stale : Option String) :
    missingStage pdb fastas cfg stale = .error .seqMismatch ↔
      (pdb.missing_residues ≠ [] ∧
       ¬ (∀ c ∈ pdbChainIDs pdb, c ∈ fastas.map Prod.fst)) := by
  unfold missingStage
  by_cases h1 : pdb.missing_residues = []
  · rw [if_pos h1]
    simp [h1]
  · rw [if_neg h1]
    by_cases h2 : ¬ (∀ c ∈ pdbChainIDs pdb, c ∈ fastas.map Prod.fst)
    · rw [if_pos h2]
      exact ⟨fun _ => ⟨h1, h2⟩, fun _ => rfl⟩
    · rw [if_neg h2]
      dsimp only
      constructor
      · intro h
        split at h
        · rename_i e heq
          have he := fastaWriteStage_error_unbound _ _ _ _ e heq
          rw [he] at h
          simp at h
        · simp at h
      · rintro ⟨ha, hb⟩
        exact absurd hb h2

/-- The final keep list of `Protein.filter`: chain-selected amino-acid
residues, surviving missing residues, hetero residues and include-entries,
minus the excluded residues (`list(set(filter) - set(excl_filter))`). -/
def keepSet (pdb : PDBObj) (cfg : FilterConfig) (missKeep : List MissingResidue)
    (inclRes exclRes : List Residue) : List KeepEntry :=
  ((pdb.residues.filter (fun r =>
      decide (r.type = "amino_acid" ∨ r.type = "amino_acid_modified") &&
      chainOK r.chainID cfg.chains)).map KeepEntry.res ++
    missKeep.map KeepEntry.mis ++ (hetStage pdb cfg).map KeepEntry.res ++
    inclRes.map KeepEntry.res).filter
      (fun e => decide (e ∉ exclRes.map KeepEntry.res))

theorem filterModel_ligand_err (rt : String → String) (pdb : PDBObj)
    (ligs cofs : List Molecule) (fastas : List (String × List Char)) (cfg : FilterConfig)
    (hls : ligandStage rt pdb.site_residues cfg.ligands cfg.cofactors cfg.chains
      cfg.include_mols cfg.exclude_mols (ligs ++ cofs) [] [] none = none) :
    filterModel rt pdb ligs cofs fastas cfg =
      ⟨ligs, cofs, pdb.residues, none, false, some .malformedId⟩ := by
  unfold filterModel
  rw [hls]

theorem filterModel_missing_err (rt : String → String) (pdb : PDBObj)
    (ligs cofs : List Molecule) (fastas : List (String × List Char)) (cfg : FilterConfig)
    (newL newC : List Molecule) (stale : Option String) (e : FilterErr)
    (hls : ligandStage rt pdb.site_residues cfg.ligands cfg.cofactors cfg.chains
      cfg.include_mols cfg.exclude_mols (ligs ++ cofs) [] [] none = some (newL, newC, stale))
    (hms : missingStage pdb fastas cfg stale = .error e) :
    filterModel rt pdb ligs cofs fastas cfg =
      ⟨newL, newC, pdb.residues, none, false, some e⟩ := by
  unfold filterModel
  rw [hls]
  dsimp only
  rw [hms]

theorem filterModel_incl_err (rt : String → String) (pdb : PDBObj)
    (ligs cofs : List Molecule) (fastas : List (String × List Char)) (cfg : FilterConfig)
    (newL newC : List Molecule) (stale : Option String)
    (missKeep : List MissingResidue) (written : Option (List (String × List Char)))
    (hls : ligandStage rt pdb.site_residues cfg.ligands cfg.cofactors cfg.chains
      cfg.include_mols cfg.exclude_mols (ligs ++ cofs) [] [] none = some (newL, newC, stale))
    (hms : missingStage pdb fastas cfg stale = .ok (missKeep, written))
    (hin : resolveMols pdb cfg.include_mols = none) :
    filterModel rt pdb ligs cofs fastas cfg =
      ⟨newL, newC, pdb.residues, written, false, some .malformedId⟩ := by
  unfold filterModel
  rw [hls]
  dsimp only
  rw [hms]
  dsimp only
  rw [hin]

theorem filterModel_excl_err (rt : String → String) (pdb : PDBObj)
    (ligs cofs : List Molecule) (fastas : List (String × List Char)) (cfg : FilterConfig)
    (newL newC : List Molecule) (stale : Option String)
    (missKeep : List MissingResidue) (written : Option (List (String × List Char)))
    (inclRes : List Residue)
    (hls : ligandStage rt pdb.site_residues cfg.ligands cfg.cofactors cfg.chains
      cfg.include_mols cfg.exclude_mols (ligs ++ cofs) [] [] none = some (newL, newC, stale))
    (hms : missingStage pdb fastas cfg stale = .ok (missKeep, written))
    (hin : resolveMols pdb cfg.include_mols = some inclRes)
    (hex : resolveMols pdb cfg.exclude_mols = none) :
    filterModel rt pdb ligs cofs fastas cfg =
      ⟨newL, newC, pdb.residues, written, false, some .malformedId⟩ := by
  unfold filterModel
  rw [hls]
  dsimp only
  rw [hms]
  dsimp only
  rw [hin]
  dsimp only
  rw [hex]

theorem filterModel_ok_eq (rt : String → String) (pdb : PDBObj)
    (ligs cofs : List Molecule) (fastas : List (String × List Char)) (cfg : FilterConfig)
    (newL newC : List Molecule) (stale : Option String)
    (missKeep : List MissingResidue) (written : Option (List (String × List Char)))
    (inclRes exclRes : List Residue)
    (hls : ligandStage rt pdb.site_residues cfg.ligands cfg.cofactors cfg.chains
      cfg.include_mols cfg.exclude_mols (ligs ++ cofs) [] [] none = some (newL, newC, stale))
    (hms : missingStage pdb fastas cfg stale = .ok (missKeep, written))
    (hin : resolveMols pdb cfg.include_mols = some inclRes)
    (hex : resolveMols pdb cfg.exclude_mols = some exclRes) :
    filterModel rt pdb ligs cofs fastas cfg =
      ⟨newL, newC,
       pdb.residues.filter (fun r =>
         decide (KeepEntry.res r ∈ keepSet pdb cfg missKeep inclRes exclRes)),
       written, true, none⟩ := by
  unfold filterModel
  rw [hls]
  dsimp only
  rw [hms]
  dsimp only
  rw [hin]
  dsimp only
  rw [hex]
  dsimp only
  unfold keepSet
  rfl

theorem filterModel_ok_inv (rt : String → String) (pdb : PDBObj) (ligs cofs : List Molecule)
    (fastas : List (String × List Char)) (cfg : FilterConfig)
    (h : (filterModel rt pdb ligs cofs fastas cfg).error = none) :
    ∃ newL newC stale missKeep written inclRes exclRes,
      ligandStage rt pdb.site_residues cfg.ligands cfg.cofactors cfg.chains
        cfg.include_mols cfg.exclude_mols (ligs ++ cofs) [] [] none =
          some (newL, newC, stale) ∧
      missingStage pdb fastas cfg stale = .ok (missKeep, written) ∧
      resolveMols pdb cfg.include_mols = some inclRes ∧
      resolveMols pdb cfg.exclude_mols = some exclRes ∧
      filterModel rt pdb ligs cofs fastas cfg =
        ⟨newL, newC,
         pdb.residues.filter (fun r =>
           decide (KeepEntry.res r ∈ keepSet pdb cfg missKeep inclRes exclRes)),
         written, true, none⟩ := by
  cases hls : ligandStage rt pdb.site_residues cfg.ligands cfg.cofactors cfg.chains
      cfg.include_mols cfg.exclude_mols (ligs ++ cofs) [] [] none with
  | none =>
    rw [filterModel_ligand_err rt pdb ligs cofs fastas cfg hls] at h
    cases h
  | some t =>
    obtain ⟨newL, newC, stale⟩ := t
    cases hms : missingStage pdb fastas cfg stale with
    | error e =>
      rw [filterModel_missing_err rt pdb ligs cofs fastas cfg newL newC stale e hls hms] at h
      cases h
    | ok v =>
      obtain ⟨missKeep, written⟩ := v
      cases hin : resolveMols pdb cfg.include_mols with
      | none =>
        rw [filterModel_incl_err rt pdb ligs cofs fastas cfg newL newC stale missKeep
          written hls hms hin] at h
        cases h
      | some inclRes =>
        cases hex : resolveMols pdb cfg.exclude_mols with
        | none =>
          rw [filterModel_excl_err rt pdb ligs cofs fastas cfg newL newC stale missKeep
            written inclRes hls hms hin hex] at h
          cases h
        | some exclRes =>
          refine ⟨newL, newC, stale, missKeep, written, inclRes, exclRes, ?_, ?_, ?_, ?_,
            filterModel_ok_eq rt pdb ligs cofs fastas cfg newL newC stale missKeep written
              inclRes exclRes hls hms hin hex⟩ <;> first | rfl | exact hls | exact hms | exact hin | exact hex

theorem resolveMols_mem (pdb : PDBObj) :
    ∀ (l : List String) (out : List Residue), resolveMols pdb l = some out →
      ∀ s ∈ l, ∀ (c : String) (n : Int) (i : String),
        residTransform s = some (c, n, i) →
        ∀ r : Residue, r ∈ pdb.residues → r.chainID = c → r.resSeq = n → r.iCode = i →
          r.type ≠ "ligand" → r.type ≠ "cofactor" → r ∈ out := by
  intro l
  induction l with
  | nil => intro out h s hs; cases hs
  | cons s0 rest ih =>
    intro out h s hs c n i hparse r hr hc hn hi ht1 ht2
    rw [resolveMols] at h
    cases hp0 : residTransform s0 with
    | none => rw [hp0] at h; cases h
    | some t0 =>
      obtain ⟨c0, n0, i0⟩ := t0
      rw [hp0] at h
      dsimp only at h
      cases hrest : resolveMols pdb rest with
      | none => rw [hrest] at h; simp at h
      | some acc =>
        rw [hrest] at h
        simp only [Option.map_some'] at h
        have hout := (Option.some.inj h).symm
        rcases List.mem_cons.mp hs with heq | hs2
        · have hparse0 : residTransform s0 = some (c, n, i) := by rw [← heq]; exact hparse
          have hinj := Option.some.inj (hp0.symm.trans hparse0)
          rw [Prod.mk.injEq, Prod.mk.injEq] at hinj
          obtain ⟨h1, h2, h3⟩ := hinj
          rw [hout]
          refine List.mem_append.mpr (Or.inl (List.mem_filter.mpr ⟨hr, ?_⟩))
          rw [h1, h2, h3]
          exact decide_eq_true ⟨hc, hn, hi, ht1, ht2⟩
        · rw [hout]
          exact List.mem_append.mpr
            (Or.inr (ih acc hrest s hs2 c n i hparse r hr hc hn hi ht1 ht2))

theorem hetOne_site_mem (pdb : PDBObj) (cs : List String) (param : Option String)
    (name : String) (r : Residue) (hp : param = some "site")
    (h : r ∈ hetOne pdb (Chains.only cs) param name) :
    r.chainID ∈ cs ∧ r ∈ pdb.site_residues := by
  unfold hetOne at h
  rw [hp] at h
  rw [if_neg (by simp)] at h
  rw [if_neg (by simp)] at h
  rw [if_pos rfl] at h
  dsimp only at h
  have h2 := List.mem_filter.mp h
  have h3 := List.mem_filter.mp h2.1
  refine ⟨?_, of_decide_eq_true h2.2⟩
  have := (Bool.and_eq_true _ _).mp h3.2
  exact of_decide_eq_true this.2

/-- C2: for every completed `Protein.filter` call and every identifier
listed in `exclude_mols`, the matching molecule and residue are absent from
the outcome: a ligand or cofactor whose resSeq/iCode name component is
listed never survives into the new ligand or cofactor lists (even when the
same identifier is in `include_mols` or the category policy selects it,
since the exclusion guards the whole keep test), and a structure residue of
non-ligand/cofactor type matching a listed identifier is subtracted from
the keep-set and so absent from the kept residues after the purge. -/
theorem c2_exclude_dominates (rt : String → String) (pdb : PDBObj)
    (ligs cofs : List Molecule) (fastas : List (String × List Char)) (cfg : FilterConfig)
    (h : (filterModel rt pdb ligs cofs fastas cfg).error = none) :
    (∀ mol : Molecule, mol.resSeq_iCode ∈ cfg.exclude_mols →
      mol ∉ (filterModel rt pdb ligs cofs fastas cfg).ligands ∧
      mol ∉ (filterModel rt pdb ligs cofs fastas cfg).cofactors) ∧
    (∀ e ∈ cfg.exclude_mols, ∀ (c : String) (n : Int) (i : String),
      residTransform e = some (c, n, i) →
      ∀ r : Residue, r.chainID = c → r.resSeq = n → r.iCode = i →
        r.type ≠ "ligand" → r.type ≠ "cofactor" →
        r ∉ (filterModel rt pdb ligs cofs fastas cfg).residues) := by
  obtain ⟨newL, newC, stale, missKeep, written, inclRes, exclRes,
    hls, hms, hin, hex, heq⟩ := filterModel_ok_inv rt pdb ligs cofs fastas cfg h
  constructor
  · intro mol hmol
    have hmem := ligandStage_mem rt pdb.site_residues cfg.ligands cfg.cofactors cfg.chains
      cfg.include_mols cfg.exclude_mols (ligs ++ cofs) [] [] none newL newC stale hls mol
    constructor
    · rw [heq]
      intro hcon
      rcases hmem.1.mp hcon with hx | ⟨m, hm, hxm, add, hadd, hne⟩
      · cases hx
      · have hcond := molPasses_nonempty_conds rt pdb.site_residues cfg.ligands "ligand"
          cfg.chains cfg.include_mols cfg.exclude_mols m add hadd hne
        rw [hxm] at hmol
        exact hcond.2 hmol
    · rw [heq]
      intro hcon
      rcases hmem.2.mp hcon with hx | ⟨m, hm, hxm, add, hadd, hne⟩
      · cases hx
      · have hcond := molPasses_nonempty_conds rt pdb.site_residues cfg.cofactors "cofactor"
          cfg.chains cfg.include_mols cfg.exclude_mols m add hadd hne
        rw [hxm] at hmol
        exact hcond.2 hmol
  · intro e he c n i hparse r hc hn hi ht1 ht2
    rw [heq]
    intro hcon
    have hmf := List.mem_filter.mp hcon
    have hkeep : KeepEntry.res r ∈ keepSet pdb cfg missKeep inclRes exclRes :=
      of_decide_eq_true hmf.2
    unfold keepSet at hkeep
    have hkf := List.mem_filter.mp hkeep
    have hnotex : KeepEntry.res r ∉ exclRes.map KeepEntry.res := of_decide_eq_true hkf.2
    apply hnotex
    refine List.mem_map.mpr ⟨r, ?_, rfl⟩
    exact resolveMols_mem pdb cfg.exclude_mols exclRes hex e he c n i hparse r hmf.1
      hc hn hi ht1 ht2

/-- C5: in every completed `Protein.filter` call where the "site" policy
coincides with a non-"all" chains restriction, the site test composes with
the chain restriction by logical AND for waters, simple and complex anions
and cations (any residue of those types surviving the purge lies both in
the chain set and in `site_residues`), whereas for ligands and cofactors
the "site" policy is checked against `site_residues` by matching resSeq and
iCode only, independent of chain: a site-matched ligand is kept in the new
ligand list even when its chain is outside the chains set. -/
theorem c5_site_chain_asymmetry (rt : String → String) (pdb : PDBObj)
    (ligs cofs : List Molecule) (fastas : List (String × List Char)) (cfg : FilterConfig)
    (cs : List String)
    (hch : cfg.chains = Chains.only cs)
    (hw : cfg.waters = some "site") (hsa : cfg.simple_anions = some "site")
    (hca : cfg.complex_anions = some "site") (hsc : cfg.simple_cations = some "site")
    (hcc : cfg.complex_cations = some "site")
    (hinc : cfg.include_mols = [])
    (herr : (filterModel rt pdb ligs cofs fastas cfg).error = none) :
    (∀ r ∈ (filterModel rt pdb ligs cofs fastas cfg).residues,
       r.type ∈ (["water", "simple_anion", "complex_anion", "simple_cation",
                  "complex_cation"] : List String) →
       r.chainID ∈ cs ∧ r ∈ pdb.site_residues) ∧
    (cfg.ligands = some "site" →
      ∀ mol ∈ ligs, rt mol.resname = "ligand" →
        mol.resSeq_iCode ∉ cfg.exclude_mols →
        ∀ (c0 : String) (n : Int) (i : String),
          residTransform mol.resSeq_iCode = some (c0, n, i) →
          (∃ sr ∈ pdb.site_residues, sr.resSeq = n ∧ sr.iCode = i) →
          mol ∈ (filterModel rt pdb ligs cofs fastas cfg).ligands) := by
  obtain ⟨newL, newC, stale, missKeep, written, inclRes, exclRes,
    hls, hms, hin, hex, heq⟩ := filterModel_ok_inv rt pdb ligs cofs fastas cfg herr
  constructor
  · intro r hr htype
    rw [heq] at hr
    have hmf := List.mem_filter.mp hr
    have hkeep : KeepEntry.res r ∈ keepSet pdb cfg missKeep inclRes exclRes :=
      of_decide_eq_true hmf.2
    unfold keepSet at hkeep
    have hkf := List.mem_filter.mp hkeep
    simp only [List.mem_append] at hkf
    have htne : r.type ≠ "amino_acid" ∧ r.type ≠ "amino_acid_modified" := by
      simp only [List.mem_cons, List.not_mem_nil, or_false] at htype
      rcases htype with h | h | h | h | h <;> (rw [h]; exact ⟨by decide, by decide⟩)
    rcases hkf.1 with ((h0 | hmis) | hhet) | hincl
    · obtain ⟨r', hr', heq'⟩ := List.mem_map.mp h0
      have : r' = r := KeepEntry.res.inj heq'
      rw [this] at hr'
      have hcond := List.mem_filter.mp hr'
      have hb := (Bool.and_eq_true _ _).mp hcond.2
      rcases of_decide_eq_true hb.1 with ha | ha
      · exact absurd ha htne.1
      · exact absurd ha htne.2
    · obtain ⟨m, _, heq'⟩ := List.mem_map.mp hmis
      cases heq'
    · obtain ⟨r', hr', heq'⟩ := List.mem_map.mp hhet
      have hrr : r' = r := KeepEntry.res.inj heq'
      rw [hrr] at hr'
      unfold hetStage at hr'
      rw [hch, hw, hsa, hca, hsc, hcc] at hr'
      simp only [List.mem_append] at hr'
      rcases hr' with (((h5 | h5) | h5) | h5) | h5 <;>
        exact hetOne_site_mem pdb cs (some "site") _ r rfl h5
    · rw [hinc] at hin
      rw [resolveMols] at hin
      have : inclRes = [] := (Option.some.inj hin).symm
      rw [this] at hincl
      simp at hincl
  · intro hLig mol hmem hrt hexm c0 n i hparse hsite
    rw [heq]
    have hmm := ligandStage_mem rt pdb.site_residues cfg.ligands cfg.cofactors cfg.chains
      cfg.include_mols cfg.exclude_mols (ligs ++ cofs) [] [] none newL newC stale hls mol
    apply hmm.1.mpr
    refine Or.inr ⟨mol, List.mem_append.mpr (Or.inl hmem), rfl, ?_⟩
    rw [hLig]
    exact molPasses_site_nonempty rt pdb.site_residues cfg.chains cfg.include_mols
      cfg.exclude_mols mol "ligand" c0 n i hrt hexm hparse hsite

/-- Classification table for the C2 witness. -/
def c2Rt : String → String := fun _ => "ligand"

/-- Excluded structure residue for the C2 witness. -/
def c2Res : Residue := ⟨"A", 400, "G", "HOH", "water"⟩

/-- Excluded molecule for the C2 witness (its identifier is also in
`include_mols` and the category policy is "all"). -/
def c2Mol : Molecule := ⟨"1abc", "LIG", "B", "400G"⟩

/-- Structure state for the C2 witness. -/
def c2Pdb : PDBObj :=
  { residues := [c2Res, ⟨"A", 1, " ", "GLY", "amino_acid"⟩],
    missing_residues := [], missing_atoms := [], modified_residues := [],
    site_residues := [] }

/-- Configuration for the C2 witness: the identifier "400G" is both
included and excluded. -/
def c2Cfg : FilterConfig :=
  { missing_residues := "middle", chains := .all, waters := some "all",
    ligands := some "all", cofactors := some "all",
    simple_anions := some "all", complex_anions := some "all",
    simple_cations := some "all", complex_cations := some "all",
    include_mols := ["400G"], exclude_mols := ["400G"] }

theorem c2_exclude_dominates_witness :
    (filterModel c2Rt c2Pdb [c2Mol] [] [] c2Cfg).error = none ∧
    (c2Mol.resSeq_iCode ∈ c2Cfg.exclude_mols ∧
      c2Mol ∉ (filterModel c2Rt c2Pdb [c2Mol] [] [] c2Cfg).ligands ∧
      c2Mol ∉ (filterModel c2Rt c2Pdb [c2Mol] [] [] c2Cfg).cofactors) ∧
    c2Res ∉ (filterModel c2Rt c2Pdb [c2Mol] [] [] c2Cfg).residues := by
  refine ⟨by decide, ⟨by decide, ?_, ?_⟩, ?_⟩
  · exact ((c2_exclude_dominates c2Rt c2Pdb [c2Mol] [] [] c2Cfg (by decide)).1 c2Mol
      (by decide)).1
  · exact ((c2_exclude_dominates c2Rt c2Pdb [c2Mol] [] [] c2Cfg (by decide)).1 c2Mol
      (by decide)).2
  · exact (c2_exclude_dominates c2Rt c2Pdb [c2Mol] [] [] c2Cfg (by decide)).2 "400G"
      (by decide) "A" 400 "G" (by decide) c2Res rfl rfl rfl (by decide) (by decide)

/-- Classification table for the C5 witness. -/
def c5Rt : String → String := fun _ => "ligand"

/-- A water on chain B that is in the site list (dropped: site AND chain). -/
def c5WaterB : Residue := ⟨"B", 50, " ", "HOH", "water"⟩

/-- The site residue matching the witness ligand on resSeq and iCode. -/
def c5SiteRes : Residue := ⟨"B", 400, "G", "LIG", "ligand"⟩

/-- A ligand on chain B, outside the chain set, site-matched (kept). -/
def c5Mol : Molecule := ⟨"1abc", "LIG", "B", "400G"⟩

/-- Structure state for the C5 witness. -/
def c5Pdb : PDBObj :=
  { residues := [c5WaterB, ⟨"A", 1, " ", "GLY", "amino_acid"⟩],
    missing_residues := [], missing_atoms := [], modified_residues := [],
    site_residues := [c5WaterB, c5SiteRes] }

/-- Configuration for the C5 witness: every policy "site", chains
restricted to A. -/
def c5Cfg : FilterConfig :=
  { missing_residues := "middle", chains := .only ["A"], waters := some "site",
    ligands := some "site", cofactors := some "site",
    simple_anions := some "site", complex_anions := some "site",
    simple_cations := some "site", complex_cations := some "site",
    include_mols := [], exclude_mols := [] }

theorem c5_site_chain_asymmetry_witness :
    (filterModel c5Rt c5Pdb [c5Mol] [] [] c5Cfg).error = none ∧
    (∀ r ∈ (filterModel c5Rt c5Pdb [c5Mol] [] [] c5Cfg).residues,
       r.type ∈ (["water", "simple_anion", "complex_anion", "simple_cation",
                  "complex_cation"] : List String) →
       r.chainID ∈ ["A"] ∧ r ∈ c5Pdb.site_residues) ∧
    c5Mol ∈ (filterModel c5Rt c5Pdb [c5Mol] [] [] c5Cfg).ligands := by
  refine ⟨by decide,
    (c5_site_chain_asymmetry c5Rt c5Pdb [c5Mol] [] [] c5Cfg ["A"]
      rfl rfl rfl rfl rfl rfl rfl (by decide)).1, ?_⟩
  exact (c5_site_chain_asymmetry c5Rt c5Pdb [c5Mol] [] [] c5Cfg ["A"]
      rfl rfl rfl rfl rfl rfl rfl (by decide)).2 rfl c5Mol (by decide) rfl (by decide)
      "A" 400 "G" (by decide) ⟨c5SiteRes, by decide, rfl, rfl⟩

/-- C8: `Protein.filter` fails with the sequence-coverage error
(`SequenceMismatchError`, "Not all chains are contained in the FASTA
sequence") exactly when the structure currently reports missing residues
and its chain set is not covered by the reference sequence's chains; when
the structure reports no missing residues, the outcome is independent of
the reference sequences (the file is not consulted) and no such error is
raised.  The hypothesis is that the ligand/cofactor loop, which runs
first, does not itself abort on a malformed molecule name. -/
theorem c8_sequence_mismatch (rt : String → String) (pdb : PDBObj)
    (ligs cofs : List Molecule) (fastas : List (String × List Char)) (cfg : FilterConfig)
    (newL newC : List Molecule) (stale : Option String)
    (hls : ligandStage rt pdb.site_residues cfg.ligands cfg.cofactors cfg.chains
      cfg.include_mols cfg.exclude_mols (ligs ++ cofs) [] [] none =
        some (newL, newC, stale)) :
    ((filterModel rt pdb ligs cofs fastas cfg).error = some FilterErr.seqMismatch ↔
      (pdb.missing_residues ≠ [] ∧
       ¬ (∀ c ∈ pdbChainIDs pdb, c ∈ fastas.map Prod.fst))) ∧
    (pdb.missing_residues = [] →
      (∀ fastas', filterModel rt pdb ligs cofs fastas cfg =
        filterModel rt pdb ligs cofs fastas' cfg)) := by
  constructor
  · constructor
    · intro h
      cases hms : missingStage pdb fastas cfg stale with
      | error e =>
        rw [filterModel_missing_err rt pdb ligs cofs fastas cfg newL newC stale e hls hms]
          at h
        have he : e = FilterErr.seqMismatch := by simpa using h
        rw [he] at hms
        exact (missingStage_error_iff pdb fastas cfg stale).mp hms
      | ok v =>
        obtain ⟨missKeep, written⟩ := v
        cases hin : resolveMols pdb cfg.include_mols with
        | none =>
          rw [filterModel_incl_err rt pdb ligs cofs fastas cfg newL newC stale missKeep
            written hls hms hin] at h
          simp at h
        | some inclRes =>
          cases hex : resolveMols pdb cfg.exclude_mols with
          | none =>
            rw [filterModel_excl_err rt pdb ligs cofs fastas cfg newL newC stale missKeep
              written inclRes hls hms hin hex] at h
            simp at h
          | some exclRes =>
            rw [filterModel_ok_eq rt pdb ligs cofs fastas cfg newL newC stale missKeep
              written inclRes exclRes hls hms hin hex] at h
            simp at h
    · rintro ⟨h1, h2⟩
      have hms := (missingStage_error_iff pdb fastas cfg stale).mpr ⟨h1, h2⟩
      rw [filterModel_missing_err rt pdb ligs cofs fastas cfg newL newC stale _ hls hms]
  · intro hnil fastas'
    have hms : ∀ fs : List (String × List Char),
        missingStage pdb fs cfg stale = .ok ([], none) :=
      fun fs => missingStage_nil pdb fs cfg stale hnil
    cases hin : resolveMols pdb cfg.include_mols with
    | none =>
      rw [filterModel_incl_err rt pdb ligs cofs fastas cfg newL newC stale [] none hls
        (hms fastas) hin,
        filterModel_incl_err rt pdb ligs cofs fastas' cfg newL newC stale [] none hls
        (hms fastas') hin]
    | some inclRes =>
      cases hex : resolveMols pdb cfg.exclude_mols with
      | none =>
        rw [filterModel_excl_err rt pdb ligs cofs fastas cfg newL newC stale [] none
          inclRes hls (hms fastas) hin hex,
          filterModel_excl_err rt pdb ligs cofs fastas' cfg newL newC stale [] none
          inclRes hls (hms fastas') hin hex]
      | some exclRes =>
        rw [filterModel_ok_eq rt pdb ligs cofs fastas cfg newL newC stale [] none
          inclRes exclRes hls (hms fastas) hin hex,
          filterModel_ok_eq rt pdb ligs cofs fastas' cfg newL newC stale [] none
          inclRes exclRes hls (hms fastas') hin hex]

/-- Structure state for the C8 witness: a chain-B structure with a missing
residue, while the reference sequence only covers chain A. -/
def c8Pdb : PDBObj :=
  { residues := [⟨"B", 1, " ", "GLY", "amino_acid"⟩],
    missing_residues := [⟨"ALA", "B", 2, " "⟩],
    missing_atoms := [], modified_residues := [], site_residues := [] }

/-- Configuration for the C8 witness. -/
def c8Cfg : FilterConfig :=
  { missing_residues := "all", chains := .all, waters := some "all",
    ligands := some "all", cofactors := some "all", simple_anions := some "all",
    complex_anions := some "all", simple_cations := some "all",
    complex_cations := some "all", include_mols := [], exclude_mols := [] }

/-- Reference sequences for the C8 witness (chain A only). -/
def c8Fastas : List (String × List Char) := [("A", ['M'])]

theorem c8_sequence_mismatch_witness :
    (ligandStage (fun _ => "ligand") c8Pdb.site_residues c8Cfg.ligands c8Cfg.cofactors
      c8Cfg.chains c8Cfg.include_mols c8Cfg.exclude_mols ([] ++ []) [] [] none =
        some ([], [], none)) ∧
    (((filterModel (fun _ => "ligand") c8Pdb [] [] c8Fastas c8Cfg).error =
        some FilterErr.seqMismatch ↔
      (c8Pdb.missing_residues ≠ [] ∧
       ¬ (∀ c ∈ pdbChainIDs c8Pdb, c ∈ c8Fastas.map Prod.fst))) ∧
     (c8Pdb.missing_residues = [] →
       ∀ fastas', filterModel (fun _ => "ligand") c8Pdb [] [] c8Fastas c8Cfg =
         filterModel (fun _ => "ligand") c8Pdb [] [] fastas' c8Cfg)) :=
  ⟨rfl, c8_sequence_mismatch (fun _ => "ligand") c8Pdb [] [] c8Fastas c8Cfg [] [] none rfl⟩

/-- C10: whenever `Protein.filter` aborts with the sequence-coverage error
(missing residues present, a structure chain absent from the reference
sequence) the ligand and cofactor lists have already been replaced with the
lists computed for the new configuration by the ligand/cofactor loop, while
the structure residues are untouched, the FASTA and PDB files unwritten:
the abort is not atomic with respect to the in-memory ligand/cofactor
lists. -/
theorem c10_nonatomic_abort (rt : String → String) (pdb : PDBObj)
    (ligs cofs : List Molecule) (fastas : List (String × List Char)) (cfg : FilterConfig)
    (newL newC : List Molecule) (stale : Option String)
    (hls : ligandStage rt pdb.site_residues cfg.ligands cfg.cofactors cfg.chains
      cfg.include_mols cfg.exclude_mols (ligs ++ cofs) [] [] none =
        some (newL, newC, stale))
    (h1 : pdb.missing_residues ≠ [])
    (h2 : ¬ (∀ c ∈ pdbChainIDs pdb, c ∈ fastas.map Prod.fst)) :
    filterModel rt pdb ligs cofs fastas cfg =
      ⟨newL, newC, pdb.residues, none, false, some FilterErr.seqMismatch⟩ :=
  filterModel_missing_err rt pdb ligs cofs fastas cfg newL newC stale _ hls
    ((missingStage_error_iff pdb fastas cfg stale).mpr ⟨h1, h2⟩)

/-- A molecule kept by the new configuration in the C10 witness. -/
def c10Mol1 : Molecule := ⟨"1abc", "LIG", "A", "100"⟩

/-- A molecule excluded by the new configuration in the C10 witness. -/
def c10Mol2 : Molecule := ⟨"1abc", "LIG", "B", "400G"⟩

/-- Structure state for the C10 witness (sequence coverage fails). -/
def c10Pdb : PDBObj :=
  { residues := [⟨"B", 1, " ", "GLY", "amino_acid"⟩],
    missing_residues := [⟨"ALA", "B", 2, " "⟩],
    missing_atoms := [], modified_residues := [], site_residues := [] }

/-- Configuration for the C10 witness. -/
def c10Cfg : FilterConfig :=
  { missing_residues := "all", chains := .all, waters := some "all",
    ligands := some "all", cofactors := some "all", simple_anions := some "all",
    complex_anions := some "all", simple_cations := some "all",
    complex_cations := some "all", include_mols := [], exclude_mols := ["400G"] }

/-- Reference sequences for the C10 witness (chain A only). -/
def c10Fastas : List (String × List Char) := [("A", ['M'])]

theorem c10_nonatomic_abort_witness :
    (ligandStage (fun _ => "ligand") c10Pdb.site_residues c10Cfg.ligands c10Cfg.cofactors
      c10Cfg.chains c10Cfg.include_mols c10Cfg.exclude_mols ([c10Mol1, c10Mol2] ++ [])
      [] [] none = some ([c10Mol1], [], some "B")) ∧
    c10Pdb.missing_residues ≠ [] ∧
    (¬ (∀ c ∈ pdbChainIDs c10Pdb, c ∈ c10Fastas.map Prod.fst)) ∧
    filterModel (fun _ => "ligand") c10Pdb [c10Mol1, c10Mol2] [] c10Fastas c10Cfg =
      ⟨[c10Mol1], [], c10Pdb.residues, none, false, some FilterErr.seqMismatch⟩ :=
  ⟨by decide, by decide, by decide,
   c10_nonatomic_abort (fun _ => "ligand") c10Pdb [c10Mol1, c10Mol2] [] c10Fastas c10Cfg
     [c10Mol1] [] (some "B") (by decide) (by decide) (by decide)⟩

/-- Structure state for the C6 failing input: one chain-A structure with a
recorded missing residue and a covering reference sequence. -/
def c6Pdb : PDBObj :=
  { residues := [⟨"A", 1, " ", "GLY", "amino_acid"⟩],
    missing_residues := [⟨"ALA", "A", 2, " "⟩],
    missing_atoms := [], modified_residues := [], site_residues := [] }

/-- C6 failing configuration: `missing_residues="all"` with a non-"all"
chains restriction and no ligands or cofactors. -/
def c6Cfg : FilterConfig :=
  { missing_residues := "all", chains := .only ["A"], waters := some "all",
    ligands := some "all", cofactors := some "all", simple_anions := some "all",
    complex_anions := some "all", simple_cations := some "all",
    complex_cations := some "all", include_mols := [], exclude_mols := [] }

/-- Reference sequences for the C6 failing input (chain A covered). -/
def c6Fastas : List (String × List Char) := [("A", ['M', 'K'])]

/-- C6 (failing-input evaluation): on a structure with missing residues,
`missing_residues="all"`, chains restricted to {A} and no ligands or
cofactors, the FASTA-write comprehension at line 354 evaluates the
never-bound local `chainID` (the condition reads `chainID`, not the
comprehension variable `chainId`) and the call aborts with
UnboundLocalError instead of completing: the reference sequence is not
written back, the PDB file is not rewritten, and the structure residues
are untouched. -/
theorem c6_stale_chain_var_failure :
    (filterModel (fun _ => "ligand") c6Pdb [] [] c6Fastas c6Cfg).error =
        some FilterErr.unboundChainID ∧
    (filterModel (fun _ => "ligand") c6Pdb [] [] c6Fastas c6Cfg).pdb_written = false ∧
    (filterModel (fun _ => "ligand") c6Pdb [] [] c6Fastas c6Cfg).residues =
      c6Pdb.residues ∧
    (filterModel (fun _ => "ligand") c6Pdb [] [] c6Fastas c6Cfg).fasta_written = none :=
  ⟨by decide, by decide, by decide, by decide⟩

/-- Inputs of the `ligand_ref` setter: Python `None`, `False`, a `Ligand`
object, an identifier string, or anything else (a file path handed to the
external `Ligand` constructor). -/
inductive LigandRefInput
  | noneInput
  | falseInput
  | ligandInput (m : Molecule)
  | strInput (s : String)
  | otherInput
deriving DecidableEq, Repr

/-- Errors of the `ligand_ref` setter: the reassignment ValueError, the
"Molecule ID not found" ValueError, a `_residTransform` failure inside the
lookup loop, and the TypeError of the final else branch. -/
inductive RefErr
  | reassign
  | notFound
  | malformedRef
  | unrecognised
deriving DecidableEq, Repr

/-- The Protein state the `ligand_ref` setter reads and writes. -/
structure ProtState where
  ligands : List Molecule
  cofactors : List Molecule
  ligand_ref : Option Molecule
deriving DecidableEq, Repr

/-- Match test of the string branch (line 159): regex groups 3 and 4 of
the ligand name (the chainID and resSeq/iCode components) against the
parsed identifier, with the comparison string
`(str(resSeq_inp) + iCode_inp).strip()`. -/
def refMatches (c : String) (n : Int) (i : String) (mol : Molecule) : Bool :=
  decide (mol.chainID = c ∧
          mol.resSeq_iCode = String.mk (stripWS (toString n ++ i).data))

/-- Index and value of the first ligand matching the identifier
(`for i, ligand in enumerate(self.ligands)` with an early return). -/
def refLookup (c : String) (n : Int) (i : String) :
    List Molecule → Option (Nat × Molecule)
  | [] => none
  | mol :: rest =>
    if refMatches c n i mol then some (0, mol)
    else (refLookup c n i rest).map (fun p => (p.1 + 1, p.2))

/-- Model of the `ligand_ref` setter (lines 144-168): reassigning a
non-null reference raises; `None` with exactly one ligand takes the sole
ligand out of the list (any other `None` falls through to the external
constructor); `False` stores no reference; a `Ligand` object is stored
as-is without touching the lists; an identifier string is parsed and looked
up in `ligands` (an empty list never enters the loop, so a malformed string
only raises when some ligand is present) and the first match is removed
from the list; the final branch hands the input to the external `Ligand`
constructor, modelled from the spec as the TypeError path since the
`Ligand` collaborator is not under src/. -/
def setLigandRef (st : ProtState) (input : LigandRefInput) : Except RefErr ProtState :=
  if st.ligand_ref ≠ none then .error .reassign
  else match input with
  | .noneInput =>
      if st.ligands.length = 1 then
        .ok { st with ligand_ref := st.ligands.head?, ligands := [] }
      else .error .unrecognised
  | .falseInput => .ok { st with ligand_ref := none }
  | .ligandInput m => .ok { st with ligand_ref := some m }
  | .strInput s =>
      match st.ligands with
      | [] => .error .notFound
      | _ :: _ =>
        match residTransform s with
        | none => .error .malformedRef
        | some (c, n, i) =>
          match refLookup c n i st.ligands with
          | none => .error .notFound
          | some (j, mol) =>
              .ok { st with ligand_ref := some mol, ligands := st.ligands.eraseIdx j }
  | .otherInput => .error .unrecognised

/-- C7 counterexample: the claim "the reference ligand is a member of
neither the ligands list nor the cofactors list" fails on the code at this
concrete input: the `isinstance(input, Ligand)` branch stores the reference
without removing it from `ligands` (reachable by constructing the Protein
with the same Ligand object passed both in `ligands` and as `ligand_ref`),
so after the assignment the reference ligand is still in the ligands
list. -/
theorem c7_counterexample :
    setLigandRef ⟨[⟨"1abc", "LIG", "A", "400"⟩], [], none⟩
        (.ligandInput ⟨"1abc", "LIG", "A", "400"⟩) =
      .ok ⟨[⟨"1abc", "LIG", "A", "400"⟩], [], some ⟨"1abc", "LIG", "A", "400"⟩⟩ ∧
    (⟨[⟨"1abc", "LIG", "A", "400"⟩], [], some ⟨"1abc", "LIG", "A", "400"⟩⟩ :
        ProtState).ligand_ref = some ⟨"1abc", "LIG", "A", "400"⟩ ∧
    (⟨"1abc", "LIG", "A", "400"⟩ : Molecule) ∈
      (⟨[⟨"1abc", "LIG", "A", "400"⟩], [], some ⟨"1abc", "LIG", "A", "400"⟩⟩ :
        ProtState).ligands :=
  ⟨rfl, rfl, by decide⟩

theorem refLookup_get (c : String) (n : Int) (i : String) :
    ∀ (l : List Molecule) (j : Nat) (mol : Molecule),
      refLookup c n i l = some (j, mol) → l[j]? = some mol := by
  intro l
  induction l with
  | nil => intro j mol h; cases h
  | cons a rest ih =>
    intro j mol h
    rw [refLookup] at h
    by_cases hm : refMatches c n i a
    · rw [if_pos hm] at h
      have h2 := Option.some.inj h
      rw [Prod.mk.injEq] at h2
      rw [← h2.1, ← h2.2]
      simp
    · rw [if_neg hm] at h
      cases hrec : refLookup c n i rest with
      | none => rw [hrec] at h; cases h
      | some p =>
        obtain ⟨j', mol'⟩ := p
        rw [hrec] at h
        simp only [Option.map_some'] at h
        have h2 := Option.some.inj h
        rw [Prod.mk.injEq] at h2
        rw [← h2.1, ← h2.2]
        simpa using ih j' mol' hrec

theorem nodup_not_mem_eraseIdx :
    ∀ (l : List Molecule) (j : Nat) (mol : Molecule),
      l.Nodup → l[j]? = some mol → mol ∉ l.eraseIdx j := by
  intro l
  induction l with
  | nil => intro j mol _ h; cases h
  | cons a rest ih =>
    intro j mol hnd hget
    cases j with
    | zero =>
      have ham : a = mol := by simpa using hget
      rw [List.eraseIdx]
      rw [← ham]
      exact (List.nodup_cons.mp hnd).1
    | succ k =>
      have hget' : rest[k]? = some mol := by simpa using hget
      rw [List.eraseIdx]
      intro hcon
      rcases List.mem_cons.mp hcon with heq | hmem
      · have hmr : mol ∈ rest := List.getElem?_mem hget'
        rw [heq] at hmr
        exact (List.nodup_cons.mp hnd).1 hmr
      · exact ih k mol (List.nodup_cons.mp hnd).2 hget' hmem

/-- C7 amended: once the reference ligand is non-null it is stable (any
further assignment, whatever the input, raises the reassignment error);
when the reference is selected from the ligands list — automatically as the
sole ligand, or by identifier-string lookup — the selected entry is removed
from the ligands list, so (absent duplicate entries) the reference is not a
member of that list; but a Ligand object passed directly is stored as the
reference without being removed from the ligands or cofactors lists, and
the cofactors list is never purged of the reference. -/
theorem c7_ligand_ref_amended :
    (∀ (st : ProtState) (input : LigandRefInput) (m : Molecule),
        st.ligand_ref = some m → setLigandRef st input = .error .reassign) ∧
    (∀ (st : ProtState) (m : Molecule), st.ligand_ref = none → st.ligands = [m] →
        setLigandRef st .noneInput =
          .ok { st with ligand_ref := some m, ligands := [] } ∧
        m ∉ ({ st with ligand_ref := some m, ligands := ([] : List Molecule) } :
          ProtState).ligands) ∧
    (∀ (st : ProtState) (s : String) (c : String) (n : Int) (i : String)
        (j : Nat) (mol : Molecule),
        st.ligand_ref = none →
        residTransform s = some (c, n, i) →
        refLookup c n i st.ligands = some (j, mol) →
        setLigandRef st (.strInput s) =
          .ok { st with ligand_ref := some mol, ligands := st.ligands.eraseIdx j } ∧
        (st.ligands.Nodup → mol ∉ st.ligands.eraseIdx j)) ∧
    (∀ (st : ProtState) (m : Molecule), st.ligand_ref = none →
        setLigandRef st (.ligandInput m) = .ok { st with ligand_ref := some m }) := by
  refine ⟨?_, ?_, ?_, ?_⟩
  · intro st input m h
    unfold setLigandRef
    rw [if_pos (by rw [h]; simp)]
  · intro st m h hlig
    constructor
    · unfold setLigandRef
      rw [if_neg (by rw [h]; simp)]
      dsimp only
      rw [hlig]
      rfl
    · simp
  · intro st s c n i j mol h hp hlook
    constructor
    · unfold setLigandRef
      rw [if_neg (by rw [h]; simp)]
      dsimp only
      cases hlig : st.ligands with
      | nil =>
        rw [hlig] at hlook
        simp [refLookup] at hlook
      | cons a rest =>
        rw [hlig] at hlook
        dsimp only
        rw [hp]
        dsimp only
        rw [hlook]
    · intro hnd
      exact nodup_not_mem_eraseIdx st.ligands j mol hnd
        (refLookup_get c n i st.ligands j mol hlook)
  · intro st m h
    unfold setLigandRef
    rw [if_neg (by rw [h]; simp)]

/-- Reference molecule for the C7 witness parts. -/
def c7Ref : Molecule := ⟨"1abc", "LIG", "A", "300"⟩

/-- Non-matching first ligand for the string-lookup part of the C7
witness. -/
def c7Other : Molecule := ⟨"1abc", "LIG", "B", "100"⟩

/-- Matching ligand for the string-lookup part of the C7 witness. -/
def c7Match : Molecule := ⟨"1abc", "LIG", "A", "400G"⟩

theorem c7_ligand_ref_amended_witness :
    setLigandRef ⟨[], [], some c7Ref⟩ .falseInput = .error .reassign ∧
    (setLigandRef ⟨[c7Match], [c7Other], none⟩ .noneInput =
        .ok ⟨[], [c7Other], some c7Match⟩ ∧
      c7Match ∉ (⟨[], [c7Other], some c7Match⟩ : ProtState).ligands) ∧
    (setLigandRef ⟨[c7Other, c7Match], [], none⟩ (.strInput "A400G") =
        .ok ⟨[c7Other], [], some c7Match⟩ ∧
      c7Match ∉ ([c7Other, c7Match] : List Molecule).eraseIdx 1) ∧
    setLigandRef ⟨[c7Other], [], none⟩ (.ligandInput c7Ref) =
      .ok ⟨[c7Other], [], some c7Ref⟩ := by
  refine ⟨?_, ⟨?_, ?_⟩, ⟨?_, ?_⟩, ?_⟩
  · exact c7_ligand_ref_amended.1 ⟨[], [], some c7Ref⟩ .falseInput c7Ref rfl
  · exact (c7_ligand_ref_amended.2.1 ⟨[c7Match], [c7Other], none⟩ c7Match rfl rfl).1
  · exact (c7_ligand_ref_amended.2.1 ⟨[c7Match], [c7Other], none⟩ c7Match rfl rfl).2
  · exact (c7_ligand_ref_amended.2.2.1 ⟨[c7Other, c7Match], [], none⟩ "A400G" "A" 400 "G"
      1 c7Match rfl (by decide) (by decide)).1
  · exact (c7_ligand_ref_amended.2.2.1 ⟨[c7Other, c7Match], [], none⟩ "A400G" "A" 400 "G"
      1 c7Match rfl (by decide) (by decide)).2 (by decide)
  · exact c7_ligand_ref_amended.2.2.2 ⟨[c7Other], [], none⟩ c7Ref rfl
